import Mathlib

/-!
Verification of the playbook YAML parser (`src/yaml-parser.js`) and the
playbook validator (`src/validator.js`).

The JavaScript sources are shallowly embedded: strings become `List Char`
(`Str`), JS `null`/`undefined` string fields become `Option Str` (both are
falsy, and the code only ever distinguishes them through truthiness), thrown
exceptions become `Except Str`, and the line-oriented parser state machine
becomes an explicit state type with a step function.  The one rewind in the
source (`lineIdx--` followed by `continue` after switching back to the `top`
context) is modelled by re-running the line processor on the same line; the
re-run happens in the `top` context, which never rewinds again, exactly as in
the source.

JS regular expressions used by the source are embedded as character-list
scanners with the same matching semantics on the inputs the parser feeds them
(single lines without embedded newlines):
  * `/^(\s*)([a-zA-Z_][a-zA-Z0-9_-]*):\s*(.*?)\s*$/`  → `matchKeyValue`
  * `/^(\s*)-\s+(.*?)\s*$/`                           → `matchListItem`
  * `/^[a-z0-9-]+$/`                                  → `isSlug`
  * `/\x7b\x7b([^\x7d]+)\x7d\x7d/g` (matchAll)        → `scanRefs`
-/

namespace Playbooks

/-- Strings of the embedded program are lists of characters. -/
abbrev Str := List Char

/-- Conversion from Lean string literals to the embedded string type. -/
def str (s : String) : Str := s.data

/-- Double-quote character. -/
def dquote : Char := Char.ofNat 34

/-- Single-quote character. -/
def squote : Char := Char.ofNat 39

/-- Opening brace character. -/
def obrace : Char := Char.ofNat 123

/-- Closing brace character. -/
def cbrace : Char := Char.ofNat 125

/-- Whitespace in the sense of the JS `\s` character class, restricted to the
ASCII whitespace characters that can occur on a physical line. -/
def isWs (c : Char) : Bool :=
  c == ' ' || c == '\t' || c == '\r' || c == '\n' || c == Char.ofNat 11 || c == Char.ofNat 12

/-- Drop leading whitespace (the left half of JS `String.prototype.trim`). -/
def trimLeft (l : Str) : Str := l.dropWhile isWs

/-- Drop trailing whitespace (the right half of JS `String.prototype.trim`). -/
def trimRight (l : Str) : Str := (l.reverse.dropWhile isWs).reverse

/-- JS `String.prototype.trim` on ASCII input. -/
def trim (l : Str) : Str := trimRight (trimLeft l)

/-- `indentOf` from yaml-parser.js: the number of leading space characters. -/
def indentOf (l : Str) : Nat := (l.takeWhile (fun c => c == ' ')).length

/-- `unquote` from yaml-parser.js: trim, then strip one matching pair of
single or double quotes. -/
def unquote (raw : Str) : Str :=
  let s := trim raw
  if (s.head? == some dquote && s.getLast? == some dquote) ||
     (s.head? == some squote && s.getLast? == some squote) then
    (s.drop 1).dropLast
  else s

/-- Character scan of the inline-list body from `parseInlineList`:
`current`, `inQuote`, `quoteChar` mirror the local variables of the source;
the pushes happen in source order. -/
def scanItems : Str → Str → Bool → Char → List Str
  | [], cur, _, _ => if trim cur = [] then [] else [trim cur]
  | c :: cs, cur, true, qc =>
    if c == qc then scanItems cs cur false qc
    else scanItems cs (cur ++ [c]) true qc
  | c :: cs, cur, false, qc =>
    if c == dquote || c == squote then scanItems cs cur true c
    else if c == ',' then trim cur :: scanItems cs [] false qc
    else scanItems cs (cur ++ [c]) false qc

/-- `parseInlineList` from yaml-parser.js. -/
def parseInlineList (raw : Str) : Except Str (List Str) :=
  let s := trim raw
  if s.head? == some '[' && s.getLast? == some ']' then
    let inner := trim ((s.drop 1).dropLast)
    if inner = [] then .ok []
    else .ok (scanItems inner [] false ' ')
  else .error (str "Expected inline list syntax [a, b, ...], got: " ++ raw)

/-- Result of `matchKeyValue`. -/
structure KV where
  indent : Nat
  key : Str
  rawValue : Str
  deriving DecidableEq, Repr

/-- First character of a key: `[a-zA-Z_]`. -/
def isKeyStart (c : Char) : Bool :=
  ('a' ≤ c && c ≤ 'z') || ('A' ≤ c && c ≤ 'Z') || c == '_'

/-- Subsequent characters of a key: `[a-zA-Z0-9_-]`. -/
def isKeyChar (c : Char) : Bool :=
  isKeyStart c || ('0' ≤ c && c ≤ '9') || c == '-'

/-- `matchKeyValue` from yaml-parser.js: the regex
`^(\s*)([a-zA-Z_][a-zA-Z0-9_-]*):\s*(.*?)\s*$` applied to one line.  The
indent group is the maximal whitespace prefix (a key cannot start with
whitespace); the key is the maximal run of key characters, which must be
followed by a literal colon; the raw value is the remainder trimmed on both
sides. -/
def matchKeyValue (l : Str) : Option KV :=
  let rest := l.dropWhile isWs
  match rest with
  | [] => none
  | c :: _ =>
    if isKeyStart c then
      match rest.dropWhile isKeyChar with
      | ':' :: r => some ⟨(l.takeWhile isWs).length, rest.takeWhile isKeyChar, trim r⟩
      | _ => none
    else none

/-- Result of `matchListItem`. -/
structure LI where
  indent : Nat
  rawValue : Str
  deriving DecidableEq, Repr

/-- `matchListItem` from yaml-parser.js: the regex `^(\s*)-\s+(.*?)\s*$`
applied to one line: optional whitespace, a dash, at least one whitespace
character, then the trimmed remainder. -/
def matchListItem (l : Str) : Option LI :=
  match l.dropWhile isWs with
  | '-' :: c :: r => if isWs c then some ⟨(l.takeWhile isWs).length, trim (c :: r)⟩ else none
  | _ => none

/-- `isBlockMappingStart` from yaml-parser.js. -/
def isBlockMappingStart (rawValue : Str) : Bool := trim rawValue = []

/-- The `AUTONOMY_VALUES` enum set, in insertion order. -/
def AUTONOMY_VALUES : List Str :=
  [str "auto", str "gate_on_breaking", str "gate_always", str "skip"]

/-- The `ERROR_POLICY_VALUES` enum set, in insertion order. -/
def ERROR_POLICY_VALUES : List Str :=
  [str "stop", str "retry_once", str "gate"]

/-- The `ESCALATION_TRIGGER_VALUES` enum set, in insertion order. -/
def ESCALATION_TRIGGER_VALUES : List Str :=
  [str "postcondition_fail", str "verdict_fail", str "agreement_breaking", str "subagent_error"]

/-- The `CONDITION_VALUES` enum set, in insertion order. -/
def CONDITION_VALUES : List Str :=
  [str "spec_exists", str "plan_exists", str "tasks_exists", str "agreement_exists",
   str "agreement_pass", str "qa_plan_exists", str "qa_verdict_pass", str "pr_created"]

/-- The `MODEL_VALUES` enum set from validator.js, in insertion order. -/
def MODEL_VALUES : List Str := [str "opus", str "sonnet", str "haiku"]

/-- An argument entry, as built by the parser (`{ name: null, description:
null, required: null }`) or hand-constructed for the validator. -/
structure Arg where
  name : Option Str := none
  description : Option Str := none
  required : Option Bool := none
  deriving DecidableEq, Repr

/-- A step entry.  `_emptyStep` in the source initialises every field below
except `model`, which parser-produced steps simply never carry (reading it
yields `undefined`); the validator reads `step.model` through a truthiness
guard, so JS `null` and `undefined` are both embedded as `none`. -/
structure Step where
  id : Option Str := none
  command : Option Str := none
  args : Str := []
  autonomy : Option Str := none
  preconditions : List Str := []
  postconditions : List Str := []
  error_policy : Option Str := none
  escalation_triggers : List Str := []
  parallel_group : Option Str := none
  model : Option Str := none
  deriving DecidableEq, Repr

/-- `_emptyStep` from yaml-parser.js. -/
def emptyStep : Step := {}

/-- The parsed playbook document (`result` in `parsePlaybook`; the `Document`
of the spec). -/
structure Playbook where
  name : Option Str := none
  description : Option Str := none
  version : Option Str := none
  args : List Arg := []
  steps : List Step := []
  deriving DecidableEq, Repr

/-- JS truthiness of a nullable string: `null`, `undefined` and `""` are
falsy. -/
def falsyS (o : Option Str) : Bool :=
  match o with
  | none => true
  | some v => v.isEmpty

/-- Decimal rendering of a number, as JS template interpolation does. -/
def natToStr (n : Nat) : Str := Nat.toDigits 10 n

/-- Prefix `Line ${n}: ` used by the parser's error messages. -/
def lineMsg (n : Nat) (rest : Str) : Str := str "Line " ++ natToStr n ++ str ": " ++ rest

/-- The slug pattern `^[a-z0-9-]+$`. -/
def isSlug (v : Str) : Bool :=
  !v.isEmpty && v.all (fun c => ('a' ≤ c && c ≤ 'z') || ('0' ≤ c && c ≤ '9') || c == '-')

/-- `_applyArgField` from yaml-parser.js. -/
def applyArgField (item : Arg) (lineOrKv : Str) (lineNum : Nat) : Except Str Arg :=
  match matchKeyValue lineOrKv with
  | none => .error (lineMsg lineNum (str "cannot parse arg field: " ++ lineOrKv))
  | some kv =>
    let value := unquote kv.rawValue
    if kv.key = str "name" then .ok { item with name := some value }
    else if kv.key = str "description" then .ok { item with description := some value }
    else if kv.key = str "required" then
      if value = str "true" then .ok { item with required := some true }
      else if value = str "false" then .ok { item with required := some false }
      else .error (lineMsg lineNum (str "arg \"required\" must be true or false, got: " ++ value))
    else .error (lineMsg lineNum (str "unknown arg field \"" ++ kv.key ++ str "\""))

/-- `_validateConditionOrTrigger` from yaml-parser.js. -/
def validateConditionOrTrigger (field value : Str) (lineNum : Nat) : Except Str Unit :=
  if field = str "escalation_triggers" then
    if value ∈ ESCALATION_TRIGGER_VALUES then .ok ()
    else .error (lineMsg lineNum (str "escalation_trigger \"" ++ value ++
      str "\" is not valid (allowed: postcondition_fail, verdict_fail, agreement_breaking, subagent_error)"))
  else
    if value ∈ CONDITION_VALUES then .ok ()
    else .error (lineMsg lineNum (str "condition \"" ++ value ++
      str "\" is not valid (allowed: spec_exists, plan_exists, tasks_exists, agreement_exists, agreement_pass, qa_plan_exists, qa_verdict_pass, pr_created)"))

/-- `_validateListField` from yaml-parser.js. -/
def validateListField (field : Str) : List Str → Nat → Except Str Unit
  | [], _ => .ok ()
  | v :: vs, n =>
    match validateConditionOrTrigger field v n with
    | .error e => .error e
    | .ok _ => validateListField field vs n

/-- Read one of the three list fields of a step by its key string. -/
def getListField (s : Step) (key : Str) : List Str :=
  if key = str "preconditions" then s.preconditions
  else if key = str "postconditions" then s.postconditions
  else s.escalation_triggers

/-- Write one of the three list fields of a step by its key string. -/
def setListField (s : Step) (key : Str) (v : List Str) : Step :=
  if key = str "preconditions" then { s with preconditions := v }
  else if key = str "postconditions" then { s with postconditions := v }
  else { s with escalation_triggers := v }

/-- `_applyStepField` from yaml-parser.js. -/
def applyStepField (item : Step) (lineOrKv : Str) (lineNum : Nat) : Except Str Step :=
  match matchKeyValue lineOrKv with
  | none => .error (lineMsg lineNum (str "cannot parse step field: " ++ lineOrKv))
  | some kv =>
    let value := unquote kv.rawValue
    if kv.key = str "id" then
      if isSlug value then .ok { item with id := some value }
      else .error (lineMsg lineNum (str "step id \"" ++ value ++ str "\" must match [a-z0-9-]+"))
    else if kv.key = str "command" then .ok { item with command := some value }
    else if kv.key = str "args" then .ok { item with args := value }
    else if kv.key = str "autonomy" then
      if value ∈ AUTONOMY_VALUES then .ok { item with autonomy := some value }
      else .error (lineMsg lineNum (str "autonomy \"" ++ value ++
        str "\" is not valid (allowed: auto, gate_on_breaking, gate_always, skip)"))
    else if kv.key = str "error_policy" then
      if value ∈ ERROR_POLICY_VALUES then .ok { item with error_policy := some value }
      else .error (lineMsg lineNum (str "error_policy \"" ++ value ++
        str "\" is not valid (allowed: stop, retry_once, gate)"))
    else if kv.key = str "parallel_group" then .ok { item with parallel_group := some value }
    else if kv.key = str "preconditions" ∨ kv.key = str "postconditions" ∨
            kv.key = str "escalation_triggers" then
      if value.head? == some '[' then
        match parseInlineList value with
        | .error e => .error e
        | .ok items =>
          match validateListField kv.key items lineNum with
          | .error e => .error e
          | .ok _ => .ok (setListField item kv.key items)
      else if value = [] then .ok (setListField item kv.key [])
      else .error (lineMsg lineNum (str "field \"" ++ kv.key ++ str "\" must be a list"))
    else .error (lineMsg lineNum (str "unknown step field \"" ++ kv.key ++ str "\""))

/-- `_validateArg` from yaml-parser.js (the flush-time required-field check
for an argument). -/
def flushValidateArg (arg : Arg) (index : Nat) : Except Str Unit :=
  if falsyS arg.name then
    .error (str "args[" ++ natToStr index ++ str "]: missing required field \"name\"")
  else if falsyS arg.description then
    .error (str "args[" ++ natToStr index ++ str "] \"" ++ arg.name.getD [] ++
      str "\": missing required field \"description\"")
  else if arg.required = none then
    .error (str "args[" ++ natToStr index ++ str "] \"" ++ arg.name.getD [] ++
      str "\": missing required field \"required\"")
  else .ok ()

/-- The `ref` computed by `_validateStep`. -/
def stepFlushRef (s : Step) (index : Nat) : Str :=
  if falsyS s.id then str "steps[" ++ natToStr index ++ str "]"
  else str "step \"" ++ s.id.getD [] ++ str "\""

/-- `_validateStep` from yaml-parser.js (the flush-time required-field check
for a step). -/
def flushValidateStep (s : Step) (index : Nat) : Except Str Unit :=
  let ref := stepFlushRef s index
  if falsyS s.id then .error (ref ++ str ": missing required field \"id\"")
  else if falsyS s.command then .error (ref ++ str ": missing required field \"command\"")
  else if falsyS s.autonomy then .error (ref ++ str ": missing required field \"autonomy\"")
  else if falsyS s.error_policy then .error (ref ++ str ": missing required field \"error_policy\"")
  else .ok ()

/-- The five contexts of the parser state machine. -/
inductive Ctx
  | top
  | args
  | argsItem
  | steps
  | stepsItem
  deriving DecidableEq, Repr

/-- The mutable state of `parsePlaybook`'s loop: the context, the document
under construction, the item being assembled (`currentItem` in the source,
split by type here since its type is determined by the context), and the
block-list sub-mode bookkeeping. -/
structure PState where
  ctx : Ctx := .top
  result : Playbook := {}
  currentArg : Option Arg := none
  currentStep : Option Step := none
  listField : Option Str := none
  listIndent : Option Nat := none
  itemDashIndent : Option Nat := none
  deriving DecidableEq, Repr

/-- Outcome of processing one line: either proceed to the next line, or
reprocess the same line (the source's `lineIdx--; continue`). -/
inductive Outcome
  | proceed (st : PState)
  | rewind (st : PState)
  deriving DecidableEq, Repr

/-- The tail of the `args_item` context, after the same-indent list-item
check: a zero-indent key flushes the item and rewinds into `top`; any other
key line is applied as a field; anything else is an error. -/
def argsItemRest (st : PState) (cur : Arg) (line trimmed : Str) (lineNum : Nat) :
    Except Str Outcome :=
  match matchKeyValue line with
  | some kv =>
    if kv.indent = 0 then
      match flushValidateArg cur (st.result.args.length + 1) with
      | .error e => .error e
      | .ok _ =>
        let res := { st.result with args := st.result.args ++ [cur] }
        .ok (.rewind { st with result := res, currentArg := none, ctx := .top })
    else
      match applyArgField cur line lineNum with
      | .error e => .error e
      | .ok c2 => .ok (.proceed { st with currentArg := some c2 })
  | none => .error (lineMsg lineNum (str "unexpected content in args item: " ++ trimmed))

/-- The part of the `steps_item` context from the key-value checks on: a
zero-indent key flushes the step and rewinds into `top`; a list-field key
either takes an inline list, opens the block-list sub-mode at the standard
two-space nested indentation, or errors; any other key line is applied as a
scalar field; otherwise the generic block-list branch of the source runs
(it is unreachable whenever `listField` was just reset) and finally the
unexpected-content error. -/
def stepsItemKv (st : PState) (cur : Step) (line trimmed : Str)
    (lineNum currentIndent : Nat) : Except Str Outcome :=
  match matchKeyValue line with
  | some kv =>
    if kv.indent = 0 then
      match flushValidateStep cur (st.result.steps.length + 1) with
      | .error e => .error e
      | .ok _ =>
        let res := { st.result with steps := st.result.steps ++ [cur] }
        .ok (.rewind { st with result := res, currentStep := none, listField := none,
                               listIndent := none, ctx := .top })
    else
      if kv.key = str "preconditions" ∨ kv.key = str "postconditions" ∨
         kv.key = str "escalation_triggers" then
        if kv.rawValue.head? == some '[' then
          match parseInlineList kv.rawValue with
          | .error e => .error e
          | .ok items =>
            match validateListField kv.key items lineNum with
            | .error e => .error e
            | .ok _ => .ok (.proceed { st with currentStep := some (setListField cur kv.key items) })
        else if kv.rawValue = [] then
          .ok (.proceed { st with listField := some kv.key, listIndent := some (currentIndent + 2) })
        else
          .error (lineMsg lineNum (str "field \"" ++ kv.key ++
            str "\" must be a list (inline [a,b] or block \"- item\")"))
      else
        match applyStepField cur line lineNum with
        | .error e => .error e
        | .ok c2 => .ok (.proceed { st with currentStep := some c2 })
  | none =>
    match st.listField with
    | some f =>
      match matchListItem line with
      | some li =>
        let v := unquote li.rawValue
        match validateConditionOrTrigger f v lineNum with
        | .error e => .error e
        | .ok _ =>
          let st2 := { st with currentStep := some (setListField cur f (getListField cur f ++ [v])) }
          match st.listIndent with
          | none => .ok (.proceed { st2 with listIndent := some li.indent })
          | some _ => .ok (.proceed st2)
      | none => .error (lineMsg lineNum (str "unexpected content in step item: " ++ trimmed))
    | none => .error (lineMsg lineNum (str "unexpected content in step item: " ++ trimmed))

/-- The `steps_item` context after the active-block-list check: a list item
at the opening dash's indentation flushes the current step and starts a new
one; everything else continues with `stepsItemKv`. -/
def stepsItemRest (st : PState) (cur : Step) (line trimmed : Str)
    (lineNum currentIndent : Nat) : Except Str Outcome :=
  match matchListItem line with
  | some li =>
    if st.itemDashIndent = some li.indent then
      match flushValidateStep cur (st.result.steps.length + 1) with
      | .error e => .error e
      | .ok _ =>
        let res := { st.result with steps := st.result.steps ++ [cur] }
        if isBlockMappingStart li.rawValue then
          .ok (.proceed { st with result := res, currentStep := some emptyStep,
                                  itemDashIndent := some li.indent, listField := none,
                                  listIndent := none })
        else
          match applyStepField emptyStep li.rawValue lineNum with
          | .error e => .error e
          | .ok item2 => .ok (.proceed { st with result := res, currentStep := some item2,
                                                 itemDashIndent := some li.indent,
                                                 listField := none, listIndent := none })
    else stepsItemKv st cur line trimmed lineNum currentIndent
  | none => stepsItemKv st cur line trimmed lineNum currentIndent

/-- Process one line of input in the current state: the body of the `for`
loop of `parsePlaybook`. -/
def processLine (st : PState) (line : Str) (lineNum : Nat) : Except Str Outcome :=
  let trimmed := trim line
  if trimmed = [] || trimmed.head? == some '#' then .ok (.proceed st)
  else
    let currentIndent := indentOf line
    match st.ctx with
    | .top =>
      match matchKeyValue line with
      | none => .error (lineMsg lineNum (str "unexpected content at top level: " ++ trimmed))
      | some kv =>
        if kv.indent ≠ 0 then
          .error (lineMsg lineNum (str "unexpected indentation at top level: " ++ trimmed))
        else if kv.key = str "name" then
          .ok (.proceed { st with result := { st.result with name := some (unquote kv.rawValue) } })
        else if kv.key = str "description" then
          .ok (.proceed { st with result := { st.result with description := some (unquote kv.rawValue) } })
        else if kv.key = str "version" then
          .ok (.proceed { st with result := { st.result with version := some (unquote kv.rawValue) } })
        else if kv.key = str "args" then
          if kv.rawValue = str "[]" ∨ kv.rawValue = str "[ ]" then .ok (.proceed st)
          else if kv.rawValue = [] then .ok (.proceed { st with ctx := .args })
          else .error (lineMsg lineNum (str "\"args\" must be an empty inline list [] or a block list"))
        else if kv.key = str "steps" then
          if kv.rawValue = str "[]" ∨ kv.rawValue = str "[ ]" then .ok (.proceed st)
          else if kv.rawValue = [] then .ok (.proceed { st with ctx := .steps })
          else .error (lineMsg lineNum (str "\"steps\" must be a block list"))
        else .error (lineMsg lineNum (str "unknown top-level field \"" ++ kv.key ++ str "\""))
    | .args =>
      match matchListItem line with
      | some li =>
        if isBlockMappingStart li.rawValue then
          .ok (.proceed { st with currentArg := some {}, itemDashIndent := some li.indent,
                                  ctx := .argsItem })
        else
          match applyArgField {} li.rawValue lineNum with
          | .error e => .error e
          | .ok item2 => .ok (.proceed { st with currentArg := some item2,
                                                 itemDashIndent := some li.indent,
                                                 ctx := .argsItem })
      | none =>
        match matchKeyValue line with
        | some kv =>
          if kv.indent = 0 then .ok (.rewind { st with ctx := .top })
          else .error (lineMsg lineNum (str "unexpected content in args section: " ++ trimmed))
        | none => .error (lineMsg lineNum (str "unexpected content in args section: " ++ trimmed))
    | .argsItem =>
      let cur := st.currentArg.getD {}
      match matchListItem line with
      | some li =>
        if st.itemDashIndent = some li.indent then
          match flushValidateArg cur (st.result.args.length + 1) with
          | .error e => .error e
          | .ok _ =>
            let res := { st.result with args := st.result.args ++ [cur] }
            if isBlockMappingStart li.rawValue then
              .ok (.proceed { st with result := res, currentArg := some {},
                                      itemDashIndent := some li.indent })
            else
              match applyArgField {} li.rawValue lineNum with
              | .error e => .error e
              | .ok item2 => .ok (.proceed { st with result := res, currentArg := some item2,
                                                     itemDashIndent := some li.indent })
        else argsItemRest st cur line trimmed lineNum
      | none => argsItemRest st cur line trimmed lineNum
    | .steps =>
      match matchListItem line with
      | some li =>
        if isBlockMappingStart li.rawValue then
          .ok (.proceed { st with currentStep := some emptyStep,
                                  itemDashIndent := some li.indent, listField := none,
                                  listIndent := none, ctx := .stepsItem })
        else
          match applyStepField emptyStep li.rawValue lineNum with
          | .error e => .error e
          | .ok item2 => .ok (.proceed { st with currentStep := some item2,
                                                 itemDashIndent := some li.indent,
                                                 listField := none, listIndent := none,
                                                 ctx := .stepsItem })
      | none =>
        match matchKeyValue line with
        | some kv =>
          if kv.indent = 0 then .ok (.rewind { st with ctx := .top })
          else .error (lineMsg lineNum (str "unexpected content in steps section: " ++ trimmed))
        | none => .error (lineMsg lineNum (str "unexpected content in steps section: " ++ trimmed))
    | .stepsItem =>
      let cur := st.currentStep.getD emptyStep
      match st.listField with
      | some f =>
        match matchListItem line with
        | some li =>
          if st.listIndent = some li.indent then
            let v := unquote li.rawValue
            match validateConditionOrTrigger f v lineNum with
            | .error e => .error e
            | .ok _ =>
              .ok (.proceed { st with
                              currentStep := some (setListField cur f (getListField cur f ++ [v])) })
          else
            stepsItemRest { st with listField := none, listIndent := none } cur line trimmed
              lineNum currentIndent
        | none =>
          stepsItemRest { st with listField := none, listIndent := none } cur line trimmed
            lineNum currentIndent
      | none => stepsItemRest st cur line trimmed lineNum currentIndent

/-- End-of-input flush and the final top-level required-field checks of
`parsePlaybook`. -/
def finishParse (st : PState) : Except Str Playbook :=
  let flushed : Except Str Playbook :=
    if st.ctx = .argsItem then
      match st.currentArg with
      | some cur =>
        match flushValidateArg cur (st.result.args.length + 1) with
        | .error e => .error e
        | .ok _ => .ok { st.result with args := st.result.args ++ [cur] }
      | none => .ok st.result
    else if st.ctx = .stepsItem then
      match st.currentStep with
      | some cur =>
        match flushValidateStep cur (st.result.steps.length + 1) with
        | .error e => .error e
        | .ok _ => .ok { st.result with steps := st.result.steps ++ [cur] }
      | none => .ok st.result
    else .ok st.result
  match flushed with
  | .error e => .error e
  | .ok res =>
    if falsyS res.name then
      .error (str "Playbook is missing required top-level field \"name\"")
    else if falsyS res.description then
      .error (str "Playbook is missing required top-level field \"description\"")
    else if falsyS res.version then
      .error (str "Playbook is missing required top-level field \"version\"")
    else if res.steps.length = 0 then
      .error (str "Playbook must define at least one step")
    else .ok res

/-- The main loop of `parsePlaybook` over the numbered lines.  A `rewind`
outcome reprocesses the same line in the new state; the source only rewinds
into the `top` context, which never rewinds again, so the second processing
of a line always proceeds (the last match arm is unreachable and proceeds
for totality). -/
def runLines (st : PState) (lineNum : Nat) : List Str → Except Str Playbook
  | [] => finishParse st
  | l :: rest =>
    match processLine st l lineNum with
    | .error e => .error e
    | .ok (.proceed st2) => runLines st2 (lineNum + 1) rest
    | .ok (.rewind st2) =>
      match processLine st2 l lineNum with
      | .error e => .error e
      | .ok (.proceed st3) => runLines st3 (lineNum + 1) rest
      | .ok (.rewind st3) => runLines st3 (lineNum + 1) rest

/-- Accumulator loop of `splitLines`: `acc` holds the current line reversed. -/
def splitLinesAux : Str → Str → List Str
  | [], acc => [acc.reverse]
  | c :: cs, acc =>
    if c == '\n' then acc.reverse :: splitLinesAux cs []
    else splitLinesAux cs (c :: acc)

/-- JS `content.split("\n")`. -/
def splitLines (l : Str) : List Str := splitLinesAux l []

/-- JS `l.replace(/\r$/, "")`: strip one trailing carriage return. -/
def stripCR (l : Str) : Str := if l.getLast? == some '\r' then l.dropLast else l

/-- `parsePlaybook` from yaml-parser.js.  The JS non-string-input guard is
subsumed by the type of `content`; everything else is embedded: split into
physical lines, strip trailing carriage returns, run the state machine, then
flush and check the document-level required fields. -/
def parsePlaybook (content : Str) : Except Str Playbook :=
  runLines {} 1 ((splitLines content).map stripCR)

/-!
The validator, `_validatePlaybook` from validator.js (the spec's
`validateDocument`).  It is a pure total function from a `Playbook` to the
list of violation messages, pushed in exactly the source's order.  The
source's `Array.isArray`/null guards on `playbook.args` and `playbook.steps`
are vacuous on the typed `Playbook` (a JS array is never `null`, `undefined`
or `""`, and the two fields are lists here), so those two required-field
checks contribute nothing and the step loop always runs over `steps`.
-/

/-- The argument-reference scanner: JS `matchAll` with the pattern
`/\x7b\x7b([^\x7d]+)\x7d\x7d/g` — two opening braces, a nonempty run of
non-closing-brace characters, two closing braces; scanning resumes after
each match and advances one character past a failed attempt. -/
def scanRefsAux : Nat → Str → List Str
  | 0, _ => []
  | _, [] => []
  | _ + 1, [_] => []
  | fuel + 1, c :: c2 :: cs2 =>
    if c == obrace && c2 == obrace then
      let nm := cs2.takeWhile (fun x => !(x == cbrace))
      if nm = [] then scanRefsAux fuel (c2 :: cs2)
      else
        match cs2.dropWhile (fun x => !(x == cbrace)) with
        | _ :: d2 :: rest =>
          if d2 == cbrace then nm :: scanRefsAux fuel rest
          else scanRefsAux fuel (c2 :: cs2)
        | _ => scanRefsAux fuel (c2 :: cs2)
    else scanRefsAux fuel (c2 :: cs2)

/-- Entry point of the scanner.  Every recursive step of `scanRefsAux`
consumes at least one character, so `l.length` units of fuel make the fuel
branch unreachable; the fuel only serves as a structural termination
measure. -/
def scanRefs (l : Str) : List Str := scanRefsAux l.length l

/-- The `stepRef` of validator.js: `step "<id>"` for a truthy id, otherwise
`step (unknown id)`. -/
def stepRef (s : Step) : Str :=
  if falsyS s.id then str "step (unknown id)"
  else str "step \"" ++ s.id.getD [] ++ str "\""

/-- Violation: missing required top-level field. -/
def topMissingMsg (field : Str) : Str :=
  str "missing required top-level field \"" ++ field ++ str "\""

/-- Violation: document name does not match the slug pattern. -/
def namePatternMsg (n : Str) : Str :=
  str "name \"" ++ n ++ str "\" must match pattern [a-z0-9-]+"

/-- Violation: empty step list. -/
def stepsMinMsg : Str := str "steps must contain at least 1 step"

/-- Violation: missing required step field. -/
def missingFieldMsg (ref field : Str) : Str :=
  ref ++ str ": missing required field \"" ++ field ++ str "\""

/-- Violation: step id does not match the slug pattern. -/
def idPatternMsg (ref idv : Str) : Str :=
  ref ++ str ": id \"" ++ idv ++ str "\" must match pattern [a-z0-9-]+"

/-- Violation: duplicate step id. -/
def dupIdMsg (idv : Str) : Str := str "step id \"" ++ idv ++ str "\" is not unique"

/-- Violation: invalid autonomy value. -/
def autonomyMsg (ref v : Str) : Str :=
  ref ++ str ": autonomy \"" ++ v ++
    str "\" is not valid (allowed: auto, gate_on_breaking, gate_always, skip)"

/-- Violation: invalid error_policy value. -/
def errorPolicyMsg (ref v : Str) : Str :=
  ref ++ str ": error_policy \"" ++ v ++ str "\" is not valid (allowed: stop, retry_once, gate)"

/-- Violation: invalid model value. -/
def modelMsg (ref v : Str) : Str :=
  ref ++ str ": model \"" ++ v ++ str "\" is not valid (allowed: opus, sonnet, haiku)"

/-- Violation: unknown escalation trigger. -/
def triggerMsg (ref v : Str) : Str :=
  ref ++ str ": escalation_trigger \"" ++ v ++
    str "\" is not a known trigger (allowed: postcondition_fail, verdict_fail, agreement_breaking, subagent_error)"

/-- Violation: unknown precondition tag. -/
def precondMsg (ref v : Str) : Str :=
  ref ++ str ": precondition \"" ++ v ++
    str "\" is not a known condition (allowed: spec_exists, plan_exists, tasks_exists, agreement_exists, agreement_pass, qa_plan_exists, qa_verdict_pass, pr_created)"

/-- Violation: unknown postcondition tag. -/
def postcondMsg (ref v : Str) : Str :=
  ref ++ str ": postcondition \"" ++ v ++
    str "\" is not a known condition (allowed: spec_exists, plan_exists, tasks_exists, agreement_exists, agreement_pass, qa_plan_exists, qa_verdict_pass, pr_created)"

/-- Violation: dangling `\x7b\x7bname\x7d\x7d` placeholder in a step's args
template. -/
def argRefMsg (ref n : Str) : Str :=
  ref ++ str ": args references \"\x7b\x7b" ++ n ++ str "\x7d\x7d\" but \"" ++ n ++
    str "\" is not a declared arg"

/-- `declaredArgNames` of validator.js:
`playbook.args.map(a => a.name).filter(Boolean)` as a membership list. -/
def declaredArgNames (p : Playbook) : List Str :=
  p.args.filterMap (fun a =>
    match a.name with
    | some v => if v = [] then none else some v
    | none => none)

/-- Top-of-function violations of `_validatePlaybook`: the five top-level
required fields (of which `args` and `steps` cannot be falsy in the typed
document), the name slug pattern, and the steps-nonempty requirement, in
source order. -/
def topViolations (p : Playbook) : List Str :=
  (if falsyS p.name then [topMissingMsg (str "name")] else []) ++
  (if falsyS p.description then [topMissingMsg (str "description")] else []) ++
  (if falsyS p.version then [topMissingMsg (str "version")] else []) ++
  (match p.name with
   | some n => if n ≠ [] ∧ ¬ isSlug n then [namePatternMsg n] else []
   | none => []) ++
  (if p.steps.length = 0 then [stepsMinMsg] else [])

/-- The required-fields loop of the per-step validation. -/
def requiredViolations (s : Step) : List Str :=
  (if falsyS s.id then [missingFieldMsg (stepRef s) (str "id")] else []) ++
  (if falsyS s.command then [missingFieldMsg (stepRef s) (str "command")] else []) ++
  (if falsyS s.autonomy then [missingFieldMsg (stepRef s) (str "autonomy")] else []) ++
  (if falsyS s.error_policy then [missingFieldMsg (stepRef s) (str "error_policy")] else [])

/-- The `if (step.id)` block of the per-step validation: slug pattern, then
uniqueness against the accumulated `seenIds`; returns its violations and the
updated seen set. -/
def idViolations (seen : List Str) (s : Step) : List Str × List Str :=
  match s.id with
  | some v =>
    if v ≠ [] then
      let pat := if ¬ isSlug v then [idPatternMsg (stepRef s) v] else []
      if v ∈ seen then (pat ++ [dupIdMsg v], seen) else (pat, v :: seen)
    else ([], seen)
  | none => ([], seen)

/-- The autonomy enum check (guarded by truthiness). -/
def autonomyViolations (s : Step) : List Str :=
  match s.autonomy with
  | some v => if v ≠ [] ∧ v ∉ AUTONOMY_VALUES then [autonomyMsg (stepRef s) v] else []
  | none => []

/-- The error_policy enum check (guarded by truthiness). -/
def errorPolicyViolations (s : Step) : List Str :=
  match s.error_policy with
  | some v => if v ≠ [] ∧ v ∉ ERROR_POLICY_VALUES then [errorPolicyMsg (stepRef s) v] else []
  | none => []

/-- The model enum check (guarded by truthiness). -/
def modelViolations (s : Step) : List Str :=
  match s.model with
  | some v => if v ≠ [] ∧ v ∉ MODEL_VALUES then [modelMsg (stepRef s) v] else []
  | none => []

/-- The escalation_triggers membership loop. -/
def triggerViolations (s : Step) : List Str :=
  (s.escalation_triggers.filter (fun t => decide (t ∉ ESCALATION_TRIGGER_VALUES))).map
    (triggerMsg (stepRef s))

/-- The preconditions membership loop. -/
def precondViolations (s : Step) : List Str :=
  (s.preconditions.filter (fun t => decide (t ∉ CONDITION_VALUES))).map (precondMsg (stepRef s))

/-- The postconditions membership loop. -/
def postcondViolations (s : Step) : List Str :=
  (s.postconditions.filter (fun t => decide (t ∉ CONDITION_VALUES))).map (postcondMsg (stepRef s))

/-- The referential-integrity loop over the `\x7b\x7bname\x7d\x7d`
placeholders of the step's args template (names are trimmed before lookup;
one violation per match occurrence, in order). -/
def refsViolations (decl : List Str) (s : Step) : List Str :=
  if s.args = [] then []
  else (((scanRefs s.args).map trim).filter (fun n => decide (n ∉ decl))).map
    (argRefMsg (stepRef s))

/-- One iteration of the per-step loop of `_validatePlaybook`: all violations
of one step in push order, plus the updated seen-id set. -/
def stepViolations (decl seen : List Str) (s : Step) : List Str × List Str :=
  let idv := idViolations seen s
  (requiredViolations s ++ idv.1 ++ autonomyViolations s ++ errorPolicyViolations s ++
    modelViolations s ++ triggerViolations s ++ precondViolations s ++ postcondViolations s ++
    refsViolations decl s, idv.2)

/-- The full per-step loop, threading the seen-id set. -/
def stepsViolations (decl : List Str) : List Str → List Step → List Str
  | _, [] => []
  | seen, s :: rest =>
    let r := stepViolations decl seen s
    r.1 ++ stepsViolations decl r.2 rest

/-- The seen-id set after processing a list of steps. -/
def seenAfter : List Str → List Step → List Str
  | seen, [] => seen
  | seen, s :: rest => seenAfter (idViolations seen s).2 rest

/-- `_validatePlaybook` from validator.js — the spec's `validateDocument`:
the complete violation list of a document, in push order. -/
def validateDocument (p : Playbook) : List Str :=
  topViolations p ++ stepsViolations (declaredArgNames p) [] p.steps

/-! Concrete documents used to evaluate the embedded code on specific
inputs. -/

deriving instance DecidableEq for Except

/-- Join physical lines with newline characters (inverse of `splitLines` on
newline-free lines). -/
def joinLines : List Str → Str
  | [] => []
  | [l] => l
  | l :: rest => l ++ '\n' :: joinLines rest

/-- A playbook text whose only irregularity is a `model:` field on the step,
with one of the three values the spec and the repository's own test suite
(`tests/yaml-parser.test.js`) declare valid. -/
def modelInput : Str := joinLines [
  str "name: test",
  str "description: Model test",
  str "version: 1.0",
  str "args: []",
  str "steps:",
  str "  - id: s",
  str "    command: /c",
  str "    autonomy: auto",
  str "    error_policy: stop",
  str "    model: \"sonnet\""]

/-- A playbook text with two steps sharing the id `s`. -/
def dupInput : Str := joinLines [
  str "name: test",
  str "description: d",
  str "version: 1.0",
  str "args: []",
  str "steps:",
  str "  - id: s",
  str "    command: /c",
  str "    autonomy: auto",
  str "    error_policy: stop",
  str "  - id: s",
  str "    command: /d",
  str "    autonomy: auto",
  str "    error_policy: stop"]

/-- The document `parsePlaybook` produces for `dupInput`. -/
def dupDoc : Playbook :=
  { name := some (str "test"), description := some (str "d"), version := some (str "1.0"),
    args := [],
    steps := [
      { id := some (str "s"), command := some (str "/c"), autonomy := some (str "auto"),
        error_policy := some (str "stop") },
      { id := some (str "s"), command := some (str "/d"), autonomy := some (str "auto"),
        error_policy := some (str "stop") }] }

/-- A playbook text whose `name:` value `Bad_Name` does not match the slug
pattern. -/
def badNameInput : Str := joinLines [
  str "name: Bad_Name",
  str "description: d",
  str "version: 1.0",
  str "args: []",
  str "steps:",
  str "  - id: s",
  str "    command: /c",
  str "    autonomy: auto",
  str "    error_policy: stop"]

/-- The document `parsePlaybook` produces for `badNameInput`. -/
def badNameDoc : Playbook :=
  { name := some (str "Bad_Name"), description := some (str "d"), version := some (str "1.0"),
    args := [],
    steps := [
      { id := some (str "s"), command := some (str "/c"), autonomy := some (str "auto"),
        error_policy := some (str "stop") }] }

/-- A playbook text whose block-form `preconditions:` list writes its first
item two spaces deeper (indent 8) than the standard nested indentation
(key indent 4 + 2 = 6). -/
def deepItemInput : Str := joinLines [
  str "name: test",
  str "description: d",
  str "version: 1.0",
  str "args: []",
  str "steps:",
  str "  - id: s",
  str "    command: /c",
  str "    autonomy: auto",
  str "    error_policy: stop",
  str "    preconditions:",
  str "        - spec_exists"]

/-- The same playbook text with the block-list items at the standard nested
indentation of 6 spaces. -/
def stdItemInput : Str := joinLines [
  str "name: test",
  str "description: d",
  str "version: 1.0",
  str "args: []",
  str "steps:",
  str "  - id: s",
  str "    command: /c",
  str "    autonomy: auto",
  str "    error_policy: stop",
  str "    preconditions:",
  str "      - spec_exists",
  str "      - plan_exists"]

/-- The document `parsePlaybook` produces for `stdItemInput`. -/
def stdItemDoc : Playbook :=
  { name := some (str "test"), description := some (str "d"), version := some (str "1.0"),
    args := [],
    steps := [
      { id := some (str "s"), command := some (str "/c"), autonomy := some (str "auto"),
        error_policy := some (str "stop"),
        preconditions := [str "spec_exists", str "plan_exists"] }] }

/-- Take characters up to (excluding) the first occurrence of `c`. -/
def takeUntil (c : Char) (l : Str) : Str := l.takeWhile (fun x => !(x == c))

/-- The characters that occur in the closed tag vocabularies: lowercase
letters and underscore. -/
def tagChar (c : Char) : Bool := ('a' ≤ c && c ≤ 'z') || c == '_'

/-- A list is tag-clean when it is nonempty and made of tag characters
only. -/
def tagClean (v : Str) : Bool := !v.isEmpty && v.all tagChar

/-- The three list fields of a step. -/
inductive ListKind
  | pre
  | post
  | esc
  deriving DecidableEq, Repr

/-- The key string of a list field. -/
def lfKey : ListKind → Str
  | .pre => str "preconditions"
  | .post => str "postconditions"
  | .esc => str "escalation_triggers"

/-- The closed vocabulary a list field's values are drawn from. -/
def lfVocab : ListKind → List Str
  | .pre => CONDITION_VALUES
  | .post => CONDITION_VALUES
  | .esc => ESCALATION_TRIGGER_VALUES

/-- Join strings with `, ` — the separator of the inline list form. -/
def commaJoin : List Str → Str
  | [] => []
  | [v] => v
  | v :: rest => v ++ str ", " ++ commaJoin rest

/-- The nine-line skeleton shared by the C7 inputs: a complete playbook with
one fully specified step, the list field under test still to come at step
field indentation 4. -/
def c7Base : List Str := [
  str "name: test",
  str "description: d",
  str "version: 1.0",
  str "args: []",
  str "steps:",
  str "  - id: s",
  str "    command: /c",
  str "    autonomy: auto",
  str "    error_policy: stop"]

/-- The inline form: the list field key followed by `[v1, v2, ...]` on one
line. -/
def inlineInput (f : ListKind) (vs : List Str) : Str :=
  joinLines (c7Base ++ [str "    " ++ lfKey f ++ str ": [" ++ commaJoin vs ++ str "]"])

/-- The block form: the list field key with empty value, then one `- v` line
per value at the standard nested indentation of six spaces. -/
def blockInput (f : ListKind) (vs : List Str) : Str :=
  joinLines (c7Base ++ (str "    " ++ lfKey f ++ str ":") :: vs.map (fun v => str "      - " ++ v))

/-- The step the C7 skeleton builds before the list field is filled in. -/
def c7BaseStep : Step :=
  { id := some (str "s"), command := some (str "/c"), autonomy := some (str "auto"),
    error_policy := some (str "stop") }

/-- The step expected from parsing either C7 form. -/
def c7Step (f : ListKind) (vs : List Str) : Step := setListField c7BaseStep (lfKey f) vs

/-- The document expected from parsing either C7 form. -/
def c7Doc (f : ListKind) (vs : List Str) : Playbook :=
  { name := some (str "test"), description := some (str "d"), version := some (str "1.0"),
    args := [], steps := [c7Step f vs] }

/-- The parser state reached after the nine lines of `c7Base`. -/
def c7PrefState : PState :=
  { ctx := .stepsItem,
    result := { name := some (str "test"), description := some (str "d"),
                version := some (str "1.0"), args := [], steps := [] },
    currentArg := none, currentStep := some c7BaseStep,
    listField := none, listIndent := none, itemDashIndent := some 2 }

/-- The parser state inside the C7 block-list sub-mode with the items `acc`
already accumulated. -/
def c7StateAcc (f : ListKind) (acc : List Str) : PState :=
  { c7PrefState with currentStep := some (setListField c7BaseStep (lfKey f) acc),
                     listField := some (lfKey f), listIndent := some 6 }

/-- The parser state after the inline list line: the step carries the list,
no block-list sub-mode is active. -/
def c7DoneState (f : ListKind) (vs : List Str) : PState :=
  { c7PrefState with currentStep := some (setListField c7BaseStep (lfKey f) vs) }

/-- A minimal playbook text with no `parallel_group` key on its step. -/
def pgAbsentInput : Str := joinLines [
  str "name: test",
  str "description: d",
  str "version: 1.0",
  str "args: []",
  str "steps:",
  str "  - id: s",
  str "    command: /c",
  str "    autonomy: auto",
  str "    error_policy: stop"]

/-- The document `parsePlaybook` produces for `pgAbsentInput`:
`parallel_group` is null. -/
def pgAbsentDoc : Playbook :=
  { name := some (str "test"), description := some (str "d"), version := some (str "1.0"),
    args := [], steps := [c7BaseStep] }

/-- The same playbook with a `parallel_group:` key whose value is empty. -/
def pgEmptyInput : Str := joinLines [
  str "name: test",
  str "description: d",
  str "version: 1.0",
  str "args: []",
  str "steps:",
  str "  - id: s",
  str "    command: /c",
  str "    autonomy: auto",
  str "    error_policy: stop",
  str "    parallel_group:"]

/-- The document `parsePlaybook` produces for `pgEmptyInput`:
`parallel_group` is the empty string, not null. -/
def pgEmptyDoc : Playbook :=
  { name := some (str "test"), description := some (str "d"), version := some (str "1.0"),
    args := [], steps := [{ c7BaseStep with parallel_group := some [] }] }

/-- A step whose args template references the undeclared argument
`feature`. -/
def c5Step : Step := { c7BaseStep with args := str "\x7b\x7bfeature\x7d\x7d" }

/-- An otherwise-valid document with one dangling `\x7b\x7bfeature\x7d\x7d`
placeholder. -/
def c5Doc : Playbook :=
  { name := some (str "test"), description := some (str "d"), version := some (str "1.0"),
    args := [], steps := [c5Step] }

/-- An argument declaring the name `feature`. -/
def c5Arg : Arg :=
  { name := some (str "feature"), description := some (str "f"), required := some true }

/-! General list and string lemmas. -/

theorem getLast?_append_right {a b : Str} (h : b ≠ []) :
    (a ++ b).getLast? = b.getLast? := by
  cases b with
  | nil => exact absurd rfl h
  | cons x xs =>
    rw [List.getLast?_append]
    cases hx : (x :: xs).getLast? with
    | none => simp [List.getLast?_eq_none_iff] at hx
    | some y => simp [Option.or]

theorem ne_of_getLast {a b : Str} (h : a.getLast? ≠ b.getLast?) : a ≠ b :=
  fun e => h (by rw [e])

theorem eq_of_mem_ite_singleton {c : Prop} [Decidable c] {x m : Str}
    (h : x ∈ (if c then [m] else [])) : x = m := by
  by_cases hc : c
  · rw [if_pos hc] at h
    simpa using h
  · rw [if_neg hc] at h
    simp at h

theorem takeUntil_append_cons {j : Str} {c : Char} (h : c ∉ j) (rest : Str) :
    takeUntil c (j ++ c :: rest) = j := by
  induction j with
  | nil => simp [takeUntil, List.takeWhile_cons]
  | cons a as ih =>
    have ha : ¬(a == c) = true := by
      simp only [beq_iff_eq]
      intro e
      exact h (e ▸ List.mem_cons_self a as)
    have has : c ∉ as := fun m => h (List.mem_cons_of_mem a m)
    simp only [takeUntil, List.cons_append, List.takeWhile_cons] at *
    simp only [ha, Bool.not_false, if_true]
    exact congrArg (a :: ·) (ih has)

/-! Last characters of the violation message families.  Every family ends in
a fixed nonempty literal, so its messages end in a fixed character: the
duplicate-id family alone ends in `e`, the dangling-placeholder family alone
ends in `g`, and the remaining families end in `"`, `+`, `p` or `)`.  This
discriminates the families pairwise without any assumption on the embedded
field values. -/

theorem topMissingMsg_getLast (f : Str) : (topMissingMsg f).getLast? = some dquote := by
  unfold topMissingMsg
  rw [getLast?_append_right (by decide)]
  decide

theorem namePatternMsg_getLast (n : Str) : (namePatternMsg n).getLast? = some '+' := by
  unfold namePatternMsg
  rw [getLast?_append_right (by decide)]
  decide

theorem stepsMinMsg_getLast : stepsMinMsg.getLast? = some 'p' := by decide

theorem missingFieldMsg_getLast (r f : Str) : (missingFieldMsg r f).getLast? = some dquote := by
  unfold missingFieldMsg
  rw [getLast?_append_right (by decide)]
  decide

theorem idPatternMsg_getLast (r i : Str) : (idPatternMsg r i).getLast? = some '+' := by
  unfold idPatternMsg
  rw [getLast?_append_right (by decide)]
  decide

theorem dupIdMsg_getLast (i : Str) : (dupIdMsg i).getLast? = some 'e' := by
  unfold dupIdMsg
  rw [getLast?_append_right (by decide)]
  decide

theorem autonomyMsg_getLast (r v : Str) : (autonomyMsg r v).getLast? = some ')' := by
  unfold autonomyMsg
  rw [getLast?_append_right (by decide)]
  decide

theorem errorPolicyMsg_getLast (r v : Str) : (errorPolicyMsg r v).getLast? = some ')' := by
  unfold errorPolicyMsg
  rw [getLast?_append_right (by decide)]
  decide

theorem modelMsg_getLast (r v : Str) : (modelMsg r v).getLast? = some ')' := by
  unfold modelMsg
  rw [getLast?_append_right (by decide)]
  decide

theorem triggerMsg_getLast (r v : Str) : (triggerMsg r v).getLast? = some ')' := by
  unfold triggerMsg
  rw [getLast?_append_right (by decide)]
  decide

theorem precondMsg_getLast (r v : Str) : (precondMsg r v).getLast? = some ')' := by
  unfold precondMsg
  rw [getLast?_append_right (by decide)]
  decide

theorem postcondMsg_getLast (r v : Str) : (postcondMsg r v).getLast? = some ')' := by
  unfold postcondMsg
  rw [getLast?_append_right (by decide)]
  decide

theorem argRefMsg_getLast (r n : Str) : (argRefMsg r n).getLast? = some 'g' := by
  unfold argRefMsg
  rw [getLast?_append_right (by decide)]
  decide

theorem dupIdMsg_inj {a b : Str} (h : dupIdMsg a = dupIdMsg b) : a = b := by
  unfold dupIdMsg at h
  exact List.append_cancel_left (List.append_cancel_right h)

/-! Counting duplicate-id violations. -/

theorem dupIdMsg_ne_missingFieldMsg (i r f : Str) : dupIdMsg i ≠ missingFieldMsg r f :=
  ne_of_getLast (by rw [dupIdMsg_getLast, missingFieldMsg_getLast]; decide)

theorem dupIdMsg_ne_idPatternMsg (i r v : Str) : dupIdMsg i ≠ idPatternMsg r v :=
  ne_of_getLast (by rw [dupIdMsg_getLast, idPatternMsg_getLast]; decide)

theorem dupIdMsg_ne_autonomyMsg (i r v : Str) : dupIdMsg i ≠ autonomyMsg r v :=
  ne_of_getLast (by rw [dupIdMsg_getLast, autonomyMsg_getLast]; decide)

theorem dupIdMsg_ne_errorPolicyMsg (i r v : Str) : dupIdMsg i ≠ errorPolicyMsg r v :=
  ne_of_getLast (by rw [dupIdMsg_getLast, errorPolicyMsg_getLast]; decide)

theorem dupIdMsg_ne_modelMsg (i r v : Str) : dupIdMsg i ≠ modelMsg r v :=
  ne_of_getLast (by rw [dupIdMsg_getLast, modelMsg_getLast]; decide)

theorem dupIdMsg_ne_triggerMsg (i r v : Str) : dupIdMsg i ≠ triggerMsg r v :=
  ne_of_getLast (by rw [dupIdMsg_getLast, triggerMsg_getLast]; decide)

theorem dupIdMsg_ne_precondMsg (i r v : Str) : dupIdMsg i ≠ precondMsg r v :=
  ne_of_getLast (by rw [dupIdMsg_getLast, precondMsg_getLast]; decide)

theorem dupIdMsg_ne_postcondMsg (i r v : Str) : dupIdMsg i ≠ postcondMsg r v :=
  ne_of_getLast (by rw [dupIdMsg_getLast, postcondMsg_getLast]; decide)

theorem dupIdMsg_ne_argRefMsg (i r n : Str) : dupIdMsg i ≠ argRefMsg r n :=
  ne_of_getLast (by rw [dupIdMsg_getLast, argRefMsg_getLast]; decide)

theorem dupIdMsg_ne_topMissingMsg (i f : Str) : dupIdMsg i ≠ topMissingMsg f :=
  ne_of_getLast (by rw [dupIdMsg_getLast, topMissingMsg_getLast]; decide)

theorem dupIdMsg_ne_namePatternMsg (i n : Str) : dupIdMsg i ≠ namePatternMsg n :=
  ne_of_getLast (by rw [dupIdMsg_getLast, namePatternMsg_getLast]; decide)

theorem dupIdMsg_ne_stepsMinMsg (i : Str) : dupIdMsg i ≠ stepsMinMsg :=
  ne_of_getLast (by rw [dupIdMsg_getLast, stepsMinMsg_getLast]; decide)

theorem count_dup_topViolations (i : Str) (p : Playbook) :
    (topViolations p).count (dupIdMsg i) = 0 := by
  rw [List.count_eq_zero]
  intro hmem
  unfold topViolations at hmem
  simp only [List.mem_append] at hmem
  rcases hmem with ((((h | h) | h) | h) | h)
  · exact dupIdMsg_ne_topMissingMsg i _ (eq_of_mem_ite_singleton h)
  · exact dupIdMsg_ne_topMissingMsg i _ (eq_of_mem_ite_singleton h)
  · exact dupIdMsg_ne_topMissingMsg i _ (eq_of_mem_ite_singleton h)
  · cases hn : p.name with
    | none => rw [hn] at h; simp at h
    | some n =>
      rw [hn] at h
      exact dupIdMsg_ne_namePatternMsg i n (eq_of_mem_ite_singleton h)
  · by_cases hs : p.steps.length = 0
    · rw [if_pos hs] at h
      simp only [List.mem_singleton] at h
      exact dupIdMsg_ne_stepsMinMsg i h
    · rw [if_neg hs] at h
      simp at h

theorem count_dup_requiredViolations (i : Str) (s : Step) :
    (requiredViolations s).count (dupIdMsg i) = 0 := by
  rw [List.count_eq_zero]
  intro hmem
  unfold requiredViolations at hmem
  simp only [List.mem_append] at hmem
  rcases hmem with (((h | h) | h) | h) <;>
    exact dupIdMsg_ne_missingFieldMsg i _ _ (eq_of_mem_ite_singleton h)

theorem count_dup_autonomyViolations (i : Str) (s : Step) :
    (autonomyViolations s).count (dupIdMsg i) = 0 := by
  rw [List.count_eq_zero]
  intro hmem
  unfold autonomyViolations at hmem
  cases ha : s.autonomy with
  | none => rw [ha] at hmem; simp at hmem
  | some v =>
    rw [ha] at hmem
    exact dupIdMsg_ne_autonomyMsg i _ v (eq_of_mem_ite_singleton hmem)

theorem count_dup_errorPolicyViolations (i : Str) (s : Step) :
    (errorPolicyViolations s).count (dupIdMsg i) = 0 := by
  rw [List.count_eq_zero]
  intro hmem
  unfold errorPolicyViolations at hmem
  cases ha : s.error_policy with
  | none => rw [ha] at hmem; simp at hmem
  | some v =>
    rw [ha] at hmem
    exact dupIdMsg_ne_errorPolicyMsg i _ v (eq_of_mem_ite_singleton hmem)

theorem count_dup_modelViolations (i : Str) (s : Step) :
    (modelViolations s).count (dupIdMsg i) = 0 := by
  rw [List.count_eq_zero]
  intro hmem
  unfold modelViolations at hmem
  cases ha : s.model with
  | none => rw [ha] at hmem; simp at hmem
  | some v =>
    rw [ha] at hmem
    exact dupIdMsg_ne_modelMsg i _ v (eq_of_mem_ite_singleton hmem)

theorem count_dup_triggerViolations (i : Str) (s : Step) :
    (triggerViolations s).count (dupIdMsg i) = 0 := by
  rw [List.count_eq_zero]
  intro hmem
  unfold triggerViolations at hmem
  obtain ⟨t, _, ht⟩ := List.mem_map.mp hmem
  exact dupIdMsg_ne_triggerMsg i _ t ht.symm

theorem count_dup_precondViolations (i : Str) (s : Step) :
    (precondViolations s).count (dupIdMsg i) = 0 := by
  rw [List.count_eq_zero]
  intro hmem
  unfold precondViolations at hmem
  obtain ⟨t, _, ht⟩ := List.mem_map.mp hmem
  exact dupIdMsg_ne_precondMsg i _ t ht.symm

theorem count_dup_postcondViolations (i : Str) (s : Step) :
    (postcondViolations s).count (dupIdMsg i) = 0 := by
  rw [List.count_eq_zero]
  intro hmem
  unfold postcondViolations at hmem
  obtain ⟨t, _, ht⟩ := List.mem_map.mp hmem
  exact dupIdMsg_ne_postcondMsg i _ t ht.symm

theorem count_dup_refsViolations (i : Str) (decl : List Str) (s : Step) :
    (refsViolations decl s).count (dupIdMsg i) = 0 := by
  rw [List.count_eq_zero]
  intro hmem
  unfold refsViolations at hmem
  by_cases ha : s.args = []
  · rw [if_pos ha] at hmem; simp at hmem
  · rw [if_neg ha] at hmem
    obtain ⟨t, _, ht⟩ := List.mem_map.mp hmem
    exact dupIdMsg_ne_argRefMsg i _ t ht.symm

theorem count_dup_idViolations (i : Str) (hi : i ≠ []) (seen : List Str) (s : Step) :
    (idViolations seen s).1.count (dupIdMsg i) =
      if s.id = some i ∧ i ∈ seen then 1 else 0 := by
  unfold idViolations
  cases hid : s.id with
  | none => simp [hid]
  | some v =>
    have hpat : (if ¬ isSlug v = true then [idPatternMsg (stepRef s) v] else []).count
        (dupIdMsg i) = 0 := by
      rw [List.count_eq_zero]
      intro hmem
      exact dupIdMsg_ne_idPatternMsg i _ v (eq_of_mem_ite_singleton hmem)
    by_cases hv : v ≠ []
    · simp only [if_pos hv]
      by_cases hm : v ∈ seen
      · simp only [if_pos hm, List.count_append]
        rw [hpat]
        by_cases hvi : v = i
        · subst hvi
          rw [if_pos ⟨rfl, hm⟩]
          simp
        · rw [if_neg (fun hc => hvi (Option.some.inj hc.1))]
          have h0 : (dupIdMsg i) ∉ [dupIdMsg v] := by
            simp only [List.mem_singleton]
            intro hmem
            exact hvi (dupIdMsg_inj hmem).symm
          rw [List.count_eq_zero.mpr h0]
      · simp only [if_neg hm]
        rw [hpat, if_neg (fun hc => hm (by rw [Option.some.inj hc.1]; exact hc.2))]
    · simp only [if_neg hv]
      push_neg at hv
      rw [if_neg (fun hc => hi (by rw [← Option.some.inj hc.1]; exact hv))]
      simp

theorem mem_idViolations_seen (seen : List Str) (s : Step) (i : Str) :
    i ∈ (idViolations seen s).2 ↔ (i ∈ seen ∨ (s.id = some i ∧ i ≠ [])) := by
  unfold idViolations
  cases hid : s.id with
  | none => simp [hid]
  | some v =>
    by_cases hv : v ≠ []
    · simp only [if_pos hv]
      by_cases hm : v ∈ seen
      · simp only [if_pos hm]
        constructor
        · exact Or.inl
        · rintro (h | ⟨he, _⟩)
          · exact h
          · exact (Option.some.inj he) ▸ hm
      · simp only [if_neg hm, List.mem_cons]
        constructor
        · rintro (h | h)
          · exact Or.inr ⟨by rw [h], by rw [h]; exact hv⟩
          · exact Or.inl h
        · rintro (h | ⟨he, _⟩)
          · exact Or.inr h
          · exact Or.inl (Option.some.inj he).symm
    · simp only [if_neg hv]
      push_neg at hv
      subst hv
      constructor
      · exact Or.inl
      · rintro (h | ⟨he, hne⟩)
        · exact h
        · exact absurd (Option.some.inj he).symm hne

theorem count_dup_stepViolations (i : Str) (hi : i ≠ []) (decl seen : List Str) (s : Step) :
    (stepViolations decl seen s).1.count (dupIdMsg i) =
      if s.id = some i ∧ i ∈ seen then 1 else 0 := by
  unfold stepViolations
  simp only [List.count_append]
  rw [count_dup_requiredViolations, count_dup_idViolations i hi, count_dup_autonomyViolations,
    count_dup_errorPolicyViolations, count_dup_modelViolations, count_dup_triggerViolations,
    count_dup_precondViolations, count_dup_postcondViolations, count_dup_refsViolations]
  omega

theorem stepViolations_snd (decl seen : List Str) (s : Step) :
    (stepViolations decl seen s).2 = (idViolations seen s).2 := rfl

theorem count_dup_stepsViolations (i : Str) (hi : i ≠ []) (decl : List Str) :
    ∀ (steps : List Step) (seen : List Str),
      (stepsViolations decl seen steps).count (dupIdMsg i) =
        if i ∈ seen then (steps.filter (fun s => s.id = some i)).length
        else (steps.filter (fun s => s.id = some i)).length - 1 := by
  intro steps
  induction steps with
  | nil => intro seen; simp [stepsViolations]
  | cons s rest ih =>
    intro seen
    simp only [stepsViolations, List.count_append]
    rw [count_dup_stepViolations i hi, ih, stepViolations_snd]
    by_cases hsid : s.id = some i
    · have hfil : (List.filter (fun s => decide (s.id = some i)) (s :: rest)).length =
          (List.filter (fun s => decide (s.id = some i)) rest).length + 1 := by
        simp [List.filter_cons, hsid]
      have hseen2 : i ∈ (idViolations seen s).2 := by
        rw [mem_idViolations_seen]
        exact Or.inr ⟨hsid, hi⟩
      rw [if_pos hseen2, hfil]
      by_cases hm : i ∈ seen
      · rw [if_pos ⟨hsid, hm⟩, if_pos hm]
        omega
      · rw [if_neg (fun hc => hm hc.2), if_neg hm]
        omega
    · have hfil : (List.filter (fun s => decide (s.id = some i)) (s :: rest)).length =
          (List.filter (fun s => decide (s.id = some i)) rest).length := by
        simp [List.filter_cons, hsid]
      have hseen2 : (i ∈ (idViolations seen s).2) ↔ i ∈ seen := by
        rw [mem_idViolations_seen]
        constructor
        · rintro (h | ⟨he, _⟩)
          · exact h
          · exact absurd he hsid
        · exact Or.inl
      rw [if_neg (fun hc => hsid hc.1), hfil]
      by_cases hm : i ∈ seen
      · rw [if_pos (hseen2.mpr hm), if_pos hm]
        omega
      · rw [if_neg (fun hc => hm (hseen2.mp hc)), if_neg hm]
        omega

/-! Decomposition and membership lemmas for the validator. -/

theorem stepsViolations_append (decl : List Str) :
    ∀ (l1 l2 : List Step) (seen : List Str),
      stepsViolations decl seen (l1 ++ l2) =
        stepsViolations decl seen l1 ++ stepsViolations decl (seenAfter seen l1) l2 := by
  intro l1
  induction l1 with
  | nil => intro l2 seen; simp [stepsViolations, seenAfter]
  | cons s rest ih =>
    intro l2 seen
    simp only [List.cons_append, stepsViolations, stepViolations_snd, seenAfter,
      List.append_assoc, List.append_eq]
    rw [ih]

theorem mem_stepsViolations_of_mem (decl : List Str) {s : Step} {v : Str}
    (hv : ∀ seen, v ∈ (stepViolations decl seen s).1) :
    ∀ (steps : List Step) (seen : List Str), s ∈ steps → v ∈ stepsViolations decl seen steps := by
  intro steps
  induction steps with
  | nil => intro seen h; simp at h
  | cons t rest ih =>
    intro seen h
    simp only [stepsViolations, List.mem_append]
    rcases List.mem_cons.mp h with he | hm
    · exact Or.inl (he ▸ hv seen)
    · exact Or.inr (ih _ hm)

theorem mem_required_of_falsy_command {s : Step} (h : falsyS s.command = true)
    (decl seen : List Str) :
    missingFieldMsg (stepRef s) (str "command") ∈ (stepViolations decl seen s).1 := by
  unfold stepViolations requiredViolations
  simp [h, List.mem_append]

theorem mem_required_of_falsy_autonomy {s : Step} (h : falsyS s.autonomy = true)
    (decl seen : List Str) :
    missingFieldMsg (stepRef s) (str "autonomy") ∈ (stepViolations decl seen s).1 := by
  unfold stepViolations requiredViolations
  simp [h, List.mem_append]

theorem mem_required_of_falsy_error_policy {s : Step} (h : falsyS s.error_policy = true)
    (decl seen : List Str) :
    missingFieldMsg (stepRef s) (str "error_policy") ∈ (stepViolations decl seen s).1 := by
  unfold stepViolations requiredViolations
  simp [h, List.mem_append]

theorem mem_required_of_falsy_id {s : Step} (h : falsyS s.id = true)
    (decl seen : List Str) :
    missingFieldMsg (stepRef s) (str "id") ∈ (stepViolations decl seen s).1 := by
  unfold stepViolations requiredViolations
  simp [h, List.mem_append]

/-! Lemmas about the dangling-placeholder messages. -/

theorem argRefMsg_ne_missingFieldMsg (r n q f : Str) : argRefMsg r n ≠ missingFieldMsg q f :=
  ne_of_getLast (by rw [argRefMsg_getLast, missingFieldMsg_getLast]; decide)

theorem argRefMsg_ne_idPatternMsg (r n q v : Str) : argRefMsg r n ≠ idPatternMsg q v :=
  ne_of_getLast (by rw [argRefMsg_getLast, idPatternMsg_getLast]; decide)

theorem argRefMsg_ne_dupIdMsg (r n i : Str) : argRefMsg r n ≠ dupIdMsg i :=
  ne_of_getLast (by rw [argRefMsg_getLast, dupIdMsg_getLast]; decide)

theorem argRefMsg_ne_autonomyMsg (r n q v : Str) : argRefMsg r n ≠ autonomyMsg q v :=
  ne_of_getLast (by rw [argRefMsg_getLast, autonomyMsg_getLast]; decide)

theorem argRefMsg_ne_errorPolicyMsg (r n q v : Str) : argRefMsg r n ≠ errorPolicyMsg q v :=
  ne_of_getLast (by rw [argRefMsg_getLast, errorPolicyMsg_getLast]; decide)

theorem argRefMsg_ne_modelMsg (r n q v : Str) : argRefMsg r n ≠ modelMsg q v :=
  ne_of_getLast (by rw [argRefMsg_getLast, modelMsg_getLast]; decide)

theorem argRefMsg_ne_triggerMsg (r n q v : Str) : argRefMsg r n ≠ triggerMsg q v :=
  ne_of_getLast (by rw [argRefMsg_getLast, triggerMsg_getLast]; decide)

theorem argRefMsg_ne_precondMsg (r n q v : Str) : argRefMsg r n ≠ precondMsg q v :=
  ne_of_getLast (by rw [argRefMsg_getLast, precondMsg_getLast]; decide)

theorem argRefMsg_ne_postcondMsg (r n q v : Str) : argRefMsg r n ≠ postcondMsg q v :=
  ne_of_getLast (by rw [argRefMsg_getLast, postcondMsg_getLast]; decide)

theorem argRefMsg_ne_topMissingMsg (r n f : Str) : argRefMsg r n ≠ topMissingMsg f :=
  ne_of_getLast (by rw [argRefMsg_getLast, topMissingMsg_getLast]; decide)

theorem argRefMsg_ne_namePatternMsg (r n q : Str) : argRefMsg r n ≠ namePatternMsg q :=
  ne_of_getLast (by rw [argRefMsg_getLast, namePatternMsg_getLast]; decide)

theorem argRefMsg_ne_stepsMinMsg (r n : Str) : argRefMsg r n ≠ stepsMinMsg :=
  ne_of_getLast (by rw [argRefMsg_getLast, stepsMinMsg_getLast]; decide)

theorem takeUntil_dquote_extract {j X : Str} (hq : dquote ∉ j) :
    takeUntil dquote (j ++ (str "\"" ++ X)) = j := by
  have he : (str "\"" ++ X : Str) = dquote :: X := rfl
  rw [he]
  exact takeUntil_append_cons hq X

/-- Two dangling-placeholder messages with quote-free ids embedded in their
step references are equal exactly when the ids and the placeholder names
agree: the id is recovered as the run before the closing quote of the
reference, and the name by a length argument on the remainder (the name
occurs twice, so the lengths pin it down). -/
theorem argRefMsg_id_inj {j1 j2 n1 n2 : Str} (hq1 : dquote ∉ j1) (hq2 : dquote ∉ j2)
    (h : argRefMsg (str "step \"" ++ j1 ++ str "\"") n1 =
         argRefMsg (str "step \"" ++ j2 ++ str "\"") n2) :
    j1 = j2 ∧ n1 = n2 := by
  unfold argRefMsg at h
  simp only [List.append_assoc] at h
  have h1 := List.append_cancel_left h
  have hj : j1 = j2 := by
    have ht := congrArg (takeUntil dquote) h1
    rwa [takeUntil_dquote_extract hq1, takeUntil_dquote_extract hq2] at ht
  subst hj
  have h2 := List.append_cancel_left h1
  have h3 := List.append_cancel_left h2
  have h4 := List.append_cancel_left h3
  have hlen : n1.length = n2.length := by
    have hl := congrArg List.length h4
    simp only [List.length_append] at hl
    omega
  exact ⟨rfl, (List.append_inj h4 hlen).1⟩

theorem argRefMsg_unknown_inj {n1 n2 : Str}
    (h : argRefMsg (str "step (unknown id)") n1 = argRefMsg (str "step (unknown id)") n2) :
    n1 = n2 := by
  unfold argRefMsg at h
  simp only [List.append_assoc] at h
  have h1 := List.append_cancel_left h
  have h2 := List.append_cancel_left h1
  have hlen : n1.length = n2.length := by
    have hl := congrArg List.length h2
    simp only [List.length_append] at hl
    omega
  exact (List.append_inj h2 hlen).1

theorem argRefMsg_unknown_ne_id (j n1 n2 : Str) :
    argRefMsg (str "step (unknown id)") n1 ≠ argRefMsg (str "step \"" ++ j ++ str "\"") n2 := by
  intro h
  unfold argRefMsg at h
  rw [show (str "step (unknown id)" : Str) = str "step " ++ ('(' :: str "unknown id)") from
    by decide] at h
  rw [show (str "step \"" : Str) = str "step " ++ [dquote] from by decide] at h
  simp only [List.append_assoc, List.cons_append, List.singleton_append] at h
  have h2 := List.append_cancel_left h
  injection h2 with hc _
  exact absurd hc (by decide)

theorem stepRef_of_id {s : Step} {i : Str} (hid : s.id = some i) (hi : i ≠ []) :
    stepRef s = str "step \"" ++ i ++ str "\"" := by
  simp [stepRef, falsyS, hid, List.isEmpty_iff, hi]

theorem stepRef_of_falsy {s : Step} (h : falsyS s.id = true) :
    stepRef s = str "step (unknown id)" := by
  simp [stepRef, h]

theorem count_map_inj {f : Str → Str} (hinj : ∀ a b, f a = f b → a = b) (x : Str) :
    ∀ l : List Str, (l.map f).count (f x) = l.count x := by
  intro l
  induction l with
  | nil => simp
  | cons a as ih =>
    simp only [List.map_cons, List.count_cons, ih]
    by_cases hax : a = x
    · subst hax
      simp
    · have hfa : ¬(f a = f x) := fun e => hax (hinj a x e)
      simp [hax, hfa]

theorem count_filter_of_pos {pr : Str → Bool} {x : Str} (h : pr x = true) :
    ∀ l : List Str, (l.filter pr).count x = l.count x := by
  intro l
  induction l with
  | nil => simp
  | cons a as ih =>
    by_cases hax : a = x
    · subst hax
      simp [List.filter_cons, h, List.count_cons, ih]
    · have hne : ¬(x == a) = true := by
        simp only [beq_iff_eq]
        intro e
        exact hax e.symm
      by_cases hpa : pr a = true
      · simp [List.filter_cons, hpa, List.count_cons, ih, hne]
      · rw [List.filter_cons, if_neg hpa, ih, List.count_cons]
        simp
        exact hax

theorem count_filter_of_neg {pr : Str → Bool} {x : Str} (h : pr x = false)
    (l : List Str) : (l.filter pr).count x = 0 := by
  rw [List.count_eq_zero]
  intro hmem
  have := (List.mem_filter.mp hmem).2
  rw [h] at this
  exact Bool.false_ne_true this

theorem length_filter_eq_count (x : Str) :
    ∀ l : List Str, (l.filter (fun n => decide (n = x))).length = l.count x := by
  intro l
  induction l with
  | nil => simp
  | cons a as ih =>
    by_cases hax : a = x
    · subst hax
      simp [List.filter_cons, List.count_cons, ih]
    · have hne : ¬(x == a) = true := by
        simp only [beq_iff_eq]
        intro e
        exact hax e.symm
      simp [List.filter_cons, hax, List.count_cons, ih, hne]

theorem mem_idViolations_fst {seen : List Str} {t : Step} {v : Str}
    (h : v ∈ (idViolations seen t).1) :
    (∃ q w, v = idPatternMsg q w) ∨ (∃ w, v = dupIdMsg w) := by
  unfold idViolations at h
  cases hid : t.id with
  | none => rw [hid] at h; simp at h
  | some w =>
    rw [hid] at h
    by_cases hw : w ≠ []
    · simp only [if_pos hw] at h
      by_cases hm : w ∈ seen
      · simp only [if_pos hm] at h
        rcases List.mem_append.mp h with h2 | h2
        · exact Or.inl ⟨_, _, eq_of_mem_ite_singleton h2⟩
        · simp only [List.mem_singleton] at h2
          exact Or.inr ⟨w, h2⟩
      · simp only [if_neg hm] at h
        exact Or.inl ⟨_, _, eq_of_mem_ite_singleton h⟩
    · simp only [if_neg hw] at h
      simp at h

theorem count_argRef_topViolations (R x : Str) (p : Playbook) :
    (topViolations p).count (argRefMsg R x) = 0 := by
  rw [List.count_eq_zero]
  intro hmem
  unfold topViolations at hmem
  simp only [List.mem_append] at hmem
  rcases hmem with ((((h | h) | h) | h) | h)
  · exact argRefMsg_ne_topMissingMsg R x _ (eq_of_mem_ite_singleton h)
  · exact argRefMsg_ne_topMissingMsg R x _ (eq_of_mem_ite_singleton h)
  · exact argRefMsg_ne_topMissingMsg R x _ (eq_of_mem_ite_singleton h)
  · cases hn : p.name with
    | none => rw [hn] at h; simp at h
    | some n =>
      rw [hn] at h
      exact argRefMsg_ne_namePatternMsg R x n (eq_of_mem_ite_singleton h)
  · by_cases hs : p.steps.length = 0
    · rw [if_pos hs] at h
      simp only [List.mem_singleton] at h
      exact argRefMsg_ne_stepsMinMsg R x h
    · rw [if_neg hs] at h
      simp at h

theorem count_argRef_refsViolations (decl : List Str) (i x : Str) (hi : i ≠ [])
    (hqi : dquote ∉ i) (t : Step) (hqt : ∀ j, t.id = some j → dquote ∉ j) :
    (refsViolations decl t).count (argRefMsg (str "step \"" ++ i ++ str "\"") x) =
      if t.id = some i
      then (((scanRefs t.args).map trim).filter (fun n => decide (n ∉ decl))).count x
      else 0 := by
  by_cases hfal : falsyS t.id = true
  · have hne : ¬ t.id = some i := by
      intro he
      rw [he] at hfal
      simp only [falsyS, List.isEmpty_iff] at hfal
      exact hi hfal
    rw [if_neg hne, List.count_eq_zero]
    intro hmem
    unfold refsViolations at hmem
    by_cases ha : t.args = []
    · rw [if_pos ha] at hmem
      simp at hmem
    · rw [if_neg ha] at hmem
      obtain ⟨n, _, he⟩ := List.mem_map.mp hmem
      rw [stepRef_of_falsy hfal] at he
      exact argRefMsg_unknown_ne_id i n x he
  · cases hid : t.id with
    | none => rw [hid] at hfal; exact absurd rfl hfal
    | some j =>
      rw [hid] at hfal
      have hj : j ≠ [] := by
        simp only [falsyS] at hfal
        exact fun he => hfal (by rw [he]; rfl)
      by_cases hji : j = i
      · subst hji
        rw [if_pos rfl]
        unfold refsViolations
        by_cases ha : t.args = []
        · rw [if_pos ha, ha]
          simp [scanRefs, scanRefsAux]
        · rw [if_neg ha, stepRef_of_id hid hj]
          exact count_map_inj (fun a b e => (argRefMsg_id_inj hqi hqi e).2) x _
      · rw [if_neg (fun he => hji (Option.some.inj he)), List.count_eq_zero]
        intro hmem
        unfold refsViolations at hmem
        by_cases ha : t.args = []
        · rw [if_pos ha] at hmem
          simp at hmem
        · rw [if_neg ha] at hmem
          obtain ⟨n, _, he⟩ := List.mem_map.mp hmem
          rw [stepRef_of_id hid hj] at he
          exact hji (argRefMsg_id_inj (hqt j hid) hqi he).1

theorem count_argRef_stepViolations (decl seen : List Str) (i x : Str) (hi : i ≠ [])
    (hqi : dquote ∉ i) (t : Step) (hqt : ∀ j, t.id = some j → dquote ∉ j) :
    (stepViolations decl seen t).1.count (argRefMsg (str "step \"" ++ i ++ str "\"") x) =
      if t.id = some i
      then (((scanRefs t.args).map trim).filter (fun n => decide (n ∉ decl))).count x
      else 0 := by
  unfold stepViolations
  simp only [List.count_append]
  have h1 : (requiredViolations t).count (argRefMsg (str "step \"" ++ i ++ str "\"") x) = 0 := by
    rw [List.count_eq_zero]
    intro hmem
    unfold requiredViolations at hmem
    simp only [List.mem_append] at hmem
    rcases hmem with (((h | h) | h) | h) <;>
      exact argRefMsg_ne_missingFieldMsg _ x _ _ (eq_of_mem_ite_singleton h)
  have h2 : (idViolations seen t).1.count (argRefMsg (str "step \"" ++ i ++ str "\"") x) = 0 := by
    rw [List.count_eq_zero]
    intro hmem
    rcases mem_idViolations_fst hmem with ⟨q, w, he⟩ | ⟨w, he⟩
    · exact argRefMsg_ne_idPatternMsg _ x q w he
    · exact argRefMsg_ne_dupIdMsg _ x w he
  have h3 : (autonomyViolations t).count (argRefMsg (str "step \"" ++ i ++ str "\"") x) = 0 := by
    rw [List.count_eq_zero]
    intro hmem
    unfold autonomyViolations at hmem
    cases hv : t.autonomy with
    | none => rw [hv] at hmem; simp at hmem
    | some v =>
      rw [hv] at hmem
      exact argRefMsg_ne_autonomyMsg _ x _ v (eq_of_mem_ite_singleton hmem)
  have h4 : (errorPolicyViolations t).count (argRefMsg (str "step \"" ++ i ++ str "\"") x) = 0 := by
    rw [List.count_eq_zero]
    intro hmem
    unfold errorPolicyViolations at hmem
    cases hv : t.error_policy with
    | none => rw [hv] at hmem; simp at hmem
    | some v =>
      rw [hv] at hmem
      exact argRefMsg_ne_errorPolicyMsg _ x _ v (eq_of_mem_ite_singleton hmem)
  have h5 : (modelViolations t).count (argRefMsg (str "step \"" ++ i ++ str "\"") x) = 0 := by
    rw [List.count_eq_zero]
    intro hmem
    unfold modelViolations at hmem
    cases hv : t.model with
    | none => rw [hv] at hmem; simp at hmem
    | some v =>
      rw [hv] at hmem
      exact argRefMsg_ne_modelMsg _ x _ v (eq_of_mem_ite_singleton hmem)
  have h6 : (triggerViolations t).count (argRefMsg (str "step \"" ++ i ++ str "\"") x) = 0 := by
    rw [List.count_eq_zero]
    intro hmem
    obtain ⟨w, _, he⟩ := List.mem_map.mp hmem
    exact argRefMsg_ne_triggerMsg _ x _ w he.symm
  have h7 : (precondViolations t).count (argRefMsg (str "step \"" ++ i ++ str "\"") x) = 0 := by
    rw [List.count_eq_zero]
    intro hmem
    obtain ⟨w, _, he⟩ := List.mem_map.mp hmem
    exact argRefMsg_ne_precondMsg _ x _ w he.symm
  have h8 : (postcondViolations t).count (argRefMsg (str "step \"" ++ i ++ str "\"") x) = 0 := by
    rw [List.count_eq_zero]
    intro hmem
    obtain ⟨w, _, he⟩ := List.mem_map.mp hmem
    exact argRefMsg_ne_postcondMsg _ x _ w he.symm
  rw [h1, h2, h3, h4, h5, h6, h7, h8,
    count_argRef_refsViolations decl i x hi hqi t hqt]
  omega

theorem count_argRef_stepsViolations (decl : List Str) (i x : Str) (hi : i ≠ [])
    (hqi : dquote ∉ i) :
    ∀ (steps : List Step) (seen : List Str),
      (∀ t ∈ steps, ∀ j, t.id = some j → dquote ∉ j) →
      (stepsViolations decl seen steps).count (argRefMsg (str "step \"" ++ i ++ str "\"") x) =
        ((steps.filter (fun t => t.id = some i)).map
          (fun t => (((scanRefs t.args).map trim).filter
            (fun n => decide (n ∉ decl))).count x)).sum := by
  intro steps
  induction steps with
  | nil => intro seen _; simp [stepsViolations]
  | cons t rest ih =>
    intro seen hq
    simp only [stepsViolations, List.count_append, stepViolations_snd]
    rw [count_argRef_stepViolations decl seen i x hi hqi t (hq t (List.mem_cons_self t rest)),
      ih _ (fun u hu j hj => hq u (List.mem_cons_of_mem t hu) j hj)]
    by_cases hti : t.id = some i
    · rw [if_pos hti]
      simp [List.filter_cons, hti]
    · rw [if_neg hti]
      simp [List.filter_cons, hti]

theorem refsViolations_mono {decl decl2 : List Str} (hsub : ∀ y, y ∈ decl → y ∈ decl2)
    (t : Step) : ∀ v ∈ refsViolations decl2 t, v ∈ refsViolations decl t := by
  intro v hv
  unfold refsViolations at hv ⊢
  by_cases ha : t.args = []
  · rw [if_pos ha] at hv
    simp at hv
  · rw [if_neg ha] at hv ⊢
    obtain ⟨n, hn, he⟩ := List.mem_map.mp hv
    refine List.mem_map.mpr ⟨n, ?_, he⟩
    obtain ⟨hn1, hn2⟩ := List.mem_filter.mp hn
    refine List.mem_filter.mpr ⟨hn1, ?_⟩
    simp only [decide_eq_true_eq] at hn2 ⊢
    exact fun hmem => hn2 (hsub n hmem)

theorem stepViolations_fst_mono {decl decl2 seen : List Str}
    (hsub : ∀ y, y ∈ decl → y ∈ decl2) (t : Step) :
    ∀ v ∈ (stepViolations decl2 seen t).1, v ∈ (stepViolations decl seen t).1 := by
  intro v hv
  unfold stepViolations at hv ⊢
  simp only [List.mem_append] at hv ⊢
  rcases hv with h | h
  · exact Or.inl h
  · exact Or.inr (refsViolations_mono hsub t v h)

theorem stepsViolations_mono {decl decl2 : List Str} (hsub : ∀ y, y ∈ decl → y ∈ decl2) :
    ∀ (steps : List Step) (seen : List Str) (v : Str),
      v ∈ stepsViolations decl2 seen steps → v ∈ stepsViolations decl seen steps := by
  intro steps
  induction steps with
  | nil => intro seen v h; simp [stepsViolations] at h
  | cons t rest ih =>
    intro seen v h
    simp only [stepsViolations, List.mem_append, stepViolations_snd] at h ⊢
    rcases h with h | h
    · exact Or.inl (stepViolations_fst_mono hsub t v h)
    · exact Or.inr (ih _ v h)

theorem topViolations_args_irrel (p : Playbook) (q : List Arg) :
    topViolations { p with args := q } = topViolations p := rfl

theorem declaredArgNames_append_arg (p : Playbook) (a : Arg) (x : Str) (ha : a.name = some x)
    (hx : x ≠ []) :
    declaredArgNames { p with args := p.args ++ [a] } = declaredArgNames p ++ [x] := by
  unfold declaredArgNames
  simp only [List.filterMap_append]
  congr 1
  simp [ha, hx]

theorem setListField_parallel_group (s : Step) (k : Str) (v : List Str) :
    (setListField s k v).parallel_group = s.parallel_group := by
  unfold setListField
  split_ifs <;> rfl

theorem applyStepField_pg_set (st : Step) (line : Str) (n : Nat) (kv : KV)
    (hm : matchKeyValue line = some kv) (hk : kv.key = str "parallel_group") :
    applyStepField st line n = .ok { st with parallel_group := some (unquote kv.rawValue) } := by
  simp only [applyStepField, hm]
  rw [if_neg (by rw [hk]; decide), if_neg (by rw [hk]; decide), if_neg (by rw [hk]; decide),
    if_neg (by rw [hk]; decide), if_neg (by rw [hk]; decide), if_pos hk]

theorem applyStepField_pg_preserved (st st2 : Step) (line : Str) (n : Nat) (kv : KV)
    (hm : matchKeyValue line = some kv) (hk : kv.key ≠ str "parallel_group")
    (hok : applyStepField st line n = .ok st2) :
    st2.parallel_group = st.parallel_group := by
  simp only [applyStepField, hm] at hok
  split_ifs at hok <;>
    first
    | exact absurd (by assumption) hk
    | simp at hok
    | skip
  all_goals try (rw [← hok, setListField_parallel_group])
  all_goals try (rw [← hok])
  split at hok
  · exact Except.noConfusion hok
  · split at hok
    · exact Except.noConfusion hok
    · simp only [Except.ok.injEq] at hok
      rw [← hok, setListField_parallel_group]

/-! Lemmas for the C7 parser runs: splitting and joining lines, trimming
around symbolic middles, and facts about the closed tag vocabularies. -/

theorem dropWhile_append_all {p : Char → Bool} {a : Str} (h : ∀ c ∈ a, p c = true)
    (b : Str) : (a ++ b).dropWhile p = b.dropWhile p := by
  induction a with
  | nil => simp
  | cons c cs ih =>
    simp only [List.cons_append, List.dropWhile_cons_of_pos (h c (List.mem_cons_self c cs))]
    exact ih (fun d hd => h d (List.mem_cons_of_mem c hd))

theorem dropWhile_append_of_ne {p : Char → Bool} {a : Str} (h : a.dropWhile p ≠ [])
    (b : Str) : (a ++ b).dropWhile p = a.dropWhile p ++ b := by
  induction a with
  | nil => exact absurd rfl h
  | cons c cs ih =>
    by_cases hc : p c = true
    · simp only [List.cons_append, List.dropWhile_cons_of_pos hc]
      rw [List.dropWhile_cons_of_pos hc] at h
      exact ih h
    · simp only [List.cons_append, List.dropWhile_cons_of_neg hc]

theorem trimRight_last {l : Str} {c : Char} (hc : isWs c = false) :
    trimRight (l ++ [c]) = l ++ [c] := by
  unfold trimRight
  rw [List.reverse_append]
  simp only [List.reverse_singleton, List.singleton_append,
    List.dropWhile_cons_of_neg (by simp [hc] : ¬ isWs c = true)]
  simp

theorem trimRight_append_of_ne {b : Str} (h : trimRight b ≠ []) (a : Str) :
    trimRight (a ++ b) = a ++ trimRight b := by
  unfold trimRight at h ⊢
  have hb : b.reverse.dropWhile isWs ≠ [] := by
    intro he
    rw [he] at h
    simp at h
  rw [List.reverse_append, dropWhile_append_of_ne hb, List.reverse_append, List.reverse_reverse]

theorem trim_wrap {a b : Str} (h1 : a.dropWhile isWs = b) (hb : b ≠ []) (J : Str) :
    trim ((a ++ J) ++ str "]") = (b ++ J) ++ str "]" := by
  unfold trim trimLeft
  rw [List.append_assoc, dropWhile_append_of_ne (by rw [h1]; exact hb), h1,
    ← List.append_assoc, show (str "]" : Str) = [']'] from rfl, trimRight_last (by decide)]

theorem getLast?_wrap (J : Str) : ((str "[" ++ J) ++ str "]").getLast? = some ']' := by
  rw [getLast?_append_right (by decide)]
  decide

theorem splitLinesAux_no_newline {l : Str} (h : '\n' ∉ l) :
    ∀ acc, splitLinesAux l acc = [acc.reverse ++ l] := by
  induction l with
  | nil => intro acc; simp [splitLinesAux]
  | cons c cs ih =>
    intro acc
    have hc : ¬(c == '\n') = true := by
      simp only [beq_iff_eq]
      intro e
      exact h (e ▸ List.mem_cons_self c cs)
    simp only [splitLinesAux, if_neg hc]
    rw [ih (fun m => h (List.mem_cons_of_mem c m)) (c :: acc)]
    simp

theorem splitLinesAux_newline_append {l : Str} (h : '\n' ∉ l) (rest : Str) :
    ∀ acc, splitLinesAux (l ++ '\n' :: rest) acc =
      (acc.reverse ++ l) :: splitLinesAux rest [] := by
  induction l with
  | nil => intro acc; simp [splitLinesAux]
  | cons c cs ih =>
    intro acc
    have hc : ¬(c == '\n') = true := by
      simp only [beq_iff_eq]
      intro e
      exact h (e ▸ List.mem_cons_self c cs)
    simp only [List.cons_append, splitLinesAux, if_neg hc, List.append_eq]
    rw [ih (fun m => h (List.mem_cons_of_mem c m)) (c :: acc)]
    simp

theorem splitLines_joinLines :
    ∀ L : List Str, L ≠ [] → (∀ l ∈ L, '\n' ∉ l) → splitLines (joinLines L) = L := by
  intro L
  induction L with
  | nil => intro h _; exact absurd rfl h
  | cons l rest ih =>
    intro _ hnl
    cases rest with
    | nil =>
      unfold splitLines
      rw [show joinLines [l] = l from rfl,
        splitLinesAux_no_newline (hnl l (List.mem_cons_self l [])) []]
      simp
    | cons l2 rest2 =>
      unfold splitLines
      rw [show joinLines (l :: l2 :: rest2) = l ++ '\n' :: joinLines (l2 :: rest2) from rfl,
        splitLinesAux_newline_append (hnl l (List.mem_cons_self l (l2 :: rest2))) _ []]
      simp only [List.reverse_nil, List.nil_append]
      congr 1
      exact ih (by simp) (fun m hm => hnl m (List.mem_cons_of_mem l hm))

theorem mem_of_getLast?_eq : ∀ {l : Str} {c : Char}, l.getLast? = some c → c ∈ l := by
  intro l
  induction l with
  | nil => intro c h; simp at h
  | cons a t ih =>
    intro c h
    cases t with
    | nil =>
      simp only [List.getLast?_singleton, Option.some.injEq] at h
      simp [h]
    | cons b t2 =>
      rw [List.getLast?_cons_cons] at h
      exact List.mem_cons_of_mem a (ih h)

theorem stripCR_eq {l : Str} (h : '\r' ∉ l) : stripCR l = l := by
  unfold stripCR
  rw [if_neg]
  intro hb
  simp only [beq_iff_eq] at hb
  exact h (mem_of_getLast?_eq hb)

theorem scanItems_append_plain {v : Str}
    (h : ∀ c ∈ v, ((c == dquote) || (c == squote)) = false ∧ (c == ',') = false) :
    ∀ (cs cur : Str) (qc : Char),
      scanItems (v ++ cs) cur false qc = scanItems cs (cur ++ v) false qc := by
  induction v with
  | nil => simp
  | cons c v2 ih =>
    intro cs cur qc
    obtain ⟨h1, h2⟩ := h c (List.mem_cons_self c v2)
    simp only [List.cons_append, scanItems, h1, h2, Bool.false_eq_true, if_false,
      List.append_eq]
    rw [ih (fun d hd => h d (List.mem_cons_of_mem c hd))]
    simp

/-- Decidable per-value facts about every tag in a list field's closed
vocabulary, checked by evaluation over the finite vocabularies. -/
theorem lfVocab_facts (f : ListKind) :
    ∀ v ∈ lfVocab f, v ≠ [] ∧ trimLeft v = v ∧ trimRight v = v ∧ unquote v = v ∧
      '\n' ∉ v ∧ '\r' ∉ v ∧
      (∀ c ∈ v, ((c == dquote) || (c == squote)) = false ∧ (c == ',') = false ∧
        isWs c = false) := by
  cases f <;> decide

theorem trim_ws_tag {f : ListKind} {v ws : Str} (hv : v ∈ lfVocab f)
    (hws : ∀ c ∈ ws, isWs c = true) : trim (ws ++ v) = v := by
  obtain ⟨_, hL, hR, _⟩ := lfVocab_facts f v hv
  unfold trim trimLeft
  rw [dropWhile_append_all hws]
  unfold trimLeft at hL
  rw [hL]
  exact hR

theorem commaJoin_facts (f : ListKind) :
    ∀ vs : List Str, vs ≠ [] → (∀ v ∈ vs, v ∈ lfVocab f) →
      commaJoin vs ≠ [] ∧ trimLeft (commaJoin vs) = commaJoin vs ∧
        trimRight (commaJoin vs) = commaJoin vs ∧ '\n' ∉ commaJoin vs := by
  intro vs
  induction vs with
  | nil => intro h _; exact absurd rfl h
  | cons v rest ih =>
    intro _ hmem
    have hv := hmem v (List.mem_cons_self v rest)
    obtain ⟨hvne, hvL, hvR, _, hvn, _, _⟩ := lfVocab_facts f v hv
    cases rest with
    | nil => exact ⟨hvne, hvL, hvR, hvn⟩
    | cons v2 rest2 =>
      obtain ⟨hne, hL, hR, hn⟩ := ih (by simp)
        (fun u hu => hmem u (List.mem_cons_of_mem v hu))
      rw [show commaJoin (v :: v2 :: rest2) =
        (v ++ str ", ") ++ commaJoin (v2 :: rest2) from rfl]
      refine ⟨by simp [hvne], ?_, ?_, ?_⟩
      · have hvL2 : List.dropWhile isWs v = v := hvL
        have h1 : List.dropWhile isWs (v ++ str ", ") = v ++ str ", " := by
          rw [dropWhile_append_of_ne (show List.dropWhile isWs v ≠ [] by
            rw [hvL2]; exact hvne), hvL2]
        show List.dropWhile isWs ((v ++ str ", ") ++ commaJoin (v2 :: rest2)) =
          (v ++ str ", ") ++ commaJoin (v2 :: rest2)
        rw [dropWhile_append_of_ne (show List.dropWhile isWs (v ++ str ", ") ≠ [] by
          rw [h1]; exact fun hx => hvne (List.append_eq_nil.mp hx).1), h1]
      · rw [trimRight_append_of_ne (by rw [hR]; exact hne), hR]
      · intro hmem2
        rcases List.mem_append.mp hmem2 with h2 | h2
        · rcases List.mem_append.mp h2 with h3 | h3
          · exact hvn h3
          · simp only [str] at h3
            simp at h3
        · exact hn h2

theorem scanItems_commaJoin (f : ListKind) :
    ∀ vs : List Str, vs ≠ [] → (∀ v ∈ vs, v ∈ lfVocab f) →
      ∀ ws : Str, (∀ c ∈ ws, isWs c = true) →
        scanItems (commaJoin vs) ws false ' ' = vs := by
  intro vs
  induction vs with
  | nil => intro h _; exact absurd rfl h
  | cons v rest ih =>
    intro _ hmem ws hws
    have hv := hmem v (List.mem_cons_self v rest)
    obtain ⟨hvne, _, _, _, _, _, hchars⟩ := lfVocab_facts f v hv
    cases rest with
    | nil =>
      rw [show commaJoin [v] = v from rfl, ← List.append_nil v,
        scanItems_append_plain (fun c hc => ⟨(hchars c hc).1, (hchars c hc).2.1⟩)]
      rw [show scanItems [] (ws ++ v) false ' ' =
        (if trim (ws ++ v) = [] then [] else [trim (ws ++ v)]) from rfl]
      rw [trim_ws_tag hv hws, if_neg hvne]
      simp
    | cons v2 rest2 =>
      rw [show commaJoin (v :: v2 :: rest2) =
        v ++ (str ", " ++ commaJoin (v2 :: rest2)) from by
          rw [show commaJoin (v :: v2 :: rest2) =
            (v ++ str ", ") ++ commaJoin (v2 :: rest2) from rfl, List.append_assoc],
        scanItems_append_plain (fun c hc => ⟨(hchars c hc).1, (hchars c hc).2.1⟩)]
      rw [show scanItems (str ", " ++ commaJoin (v2 :: rest2)) (ws ++ v) false ' ' =
        trim (ws ++ v) :: scanItems (commaJoin (v2 :: rest2)) [' '] false ' ' from rfl]
      rw [trim_ws_tag hv hws,
        ih (by simp) (fun u hu => hmem u (List.mem_cons_of_mem v hu)) [' '] (by decide)]

theorem validateListField_ok (f : ListKind) :
    ∀ vs : List Str, (∀ v ∈ vs, v ∈ lfVocab f) → ∀ n : Nat,
      validateListField (lfKey f) vs n = .ok () := by
  intro vs
  induction vs with
  | nil => intro _ n; rfl
  | cons v rest ih =>
    intro h n
    have hv := h v (List.mem_cons_self v rest)
    have hcot : validateConditionOrTrigger (lfKey f) v n = .ok () := by
      cases f
      · have hv2 : v ∈ CONDITION_VALUES := hv
        unfold validateConditionOrTrigger
        rw [if_neg (by decide), if_pos hv2]
      · have hv2 : v ∈ CONDITION_VALUES := hv
        unfold validateConditionOrTrigger
        rw [if_neg (by decide), if_pos hv2]
      · have hv2 : v ∈ ESCALATION_TRIGGER_VALUES := hv
        unfold validateConditionOrTrigger
        rw [if_pos (show lfKey ListKind.esc = str "escalation_triggers" from rfl),
          if_pos hv2]
    simp only [validateListField, hcot]
    exact ih (fun u hu => h u (List.mem_cons_of_mem v hu)) n

theorem map_stripCR_id {L : List Str} (h : ∀ l ∈ L, '\r' ∉ l) : L.map stripCR = L := by
  induction L with
  | nil => rfl
  | cons l t ih =>
    rw [List.map_cons, stripCR_eq (h l (List.mem_cons_self l t)),
      ih (fun m hm => h m (List.mem_cons_of_mem l hm))]

theorem commaJoin_char_mem : ∀ {vs : List Str} {c : Char}, c ∈ commaJoin vs →
    (∃ v ∈ vs, c ∈ v) ∨ c ∈ str ", "
  | [], c, h => by simp [commaJoin] at h
  | [v], c, h => Or.inl ⟨v, List.mem_cons_self v [], h⟩
  | v :: v2 :: rest, c, h => by
    rw [show commaJoin (v :: v2 :: rest) = (v ++ str ", ") ++ commaJoin (v2 :: rest) from rfl] at h
    rcases List.mem_append.mp h with h1 | h1
    · rcases List.mem_append.mp h1 with h2 | h2
      · exact Or.inl ⟨v, List.mem_cons_self v (v2 :: rest), h2⟩
      · exact Or.inr h2
    · rcases commaJoin_char_mem h1 with ⟨u, hu, hcu⟩ | h2
      · exact Or.inl ⟨u, List.mem_cons_of_mem v hu, hcu⟩
      · exact Or.inr h2

theorem runLines_cons_proceed {st : PState} {l : Str} {n : Nat} {st2 : PState} (rest : List Str)
    (h : processLine st l n = .ok (.proceed st2)) :
    runLines st n (l :: rest) = runLines st2 (n + 1) rest := by
  conv_lhs => rw [runLines]
  rw [h]

theorem runLines_c7Prefix (tail : List Str) :
    runLines {} 1 (c7Base ++ tail) = runLines c7PrefState 10 tail := rfl

theorem processLine_blockKey (f : ListKind) (n : Nat) :
    processLine c7PrefState (str "    " ++ lfKey f ++ str ":") n =
      .ok (.proceed (c7StateAcc f [])) := by
  cases f <;> rfl

theorem processLine_blockItem (f : ListKind) (acc : List Str) (v : Str) (n : Nat)
    (hv : v ∈ lfVocab f) :
    processLine (c7StateAcc f acc) (str "      - " ++ v) n =
      .ok (.proceed (c7StateAcc f (acc ++ [v]))) := by
  cases f <;>
    (simp only [lfVocab, CONDITION_VALUES, ESCALATION_TRIGGER_VALUES] at hv;
     fin_cases hv <;> rfl)

theorem runLines_blockItems (f : ListKind) :
    ∀ (vs : List Str), (∀ v ∈ vs, v ∈ lfVocab f) → ∀ (acc : List Str) (n : Nat),
      runLines (c7StateAcc f acc) n (vs.map (fun v => str "      - " ++ v)) =
        finishParse (c7StateAcc f (acc ++ vs)) := by
  intro vs
  induction vs with
  | nil =>
    intro _ acc n
    rw [List.map_nil, List.append_nil]
    rfl
  | cons v rest ih =>
    intro h acc n
    rw [List.map_cons,
      runLines_cons_proceed _ (processLine_blockItem f acc v n (h v (List.mem_cons_self v rest))),
      ih (fun u hu => h u (List.mem_cons_of_mem v hu)) (acc ++ [v]) (n + 1),
      List.append_assoc, List.singleton_append]

theorem finishParse_c7Acc (f : ListKind) (vs : List Str) :
    finishParse (c7StateAcc f vs) = .ok (c7Doc f vs) := by
  cases f <;> rfl

theorem finishParse_c7Done (f : ListKind) (vs : List Str) :
    finishParse (c7DoneState f vs) = .ok (c7Doc f vs) := by
  cases f <;> rfl

theorem keyPrefix_dropWhile (f : ListKind) :
    ((str "    " ++ lfKey f) ++ str ": [").dropWhile isWs = lfKey f ++ str ": [" := by
  cases f <;> decide

theorem keyColonBracket_ne (f : ListKind) : lfKey f ++ str ": [" ≠ [] := by
  cases f <;> decide

theorem matchKeyValue_inline_line (f : ListKind) (X : Str) :
    matchKeyValue (((str "    " ++ lfKey f) ++ str ": [") ++ X) =
      some ⟨4, lfKey f, trim (str " [" ++ X)⟩ := by
  cases f <;> rfl

theorem matchListItem_inline_line (f : ListKind) (X : Str) :
    matchListItem (((str "    " ++ lfKey f) ++ str ": [") ++ X) = none := by
  cases f <;> rfl

theorem indentOf_inline_line (f : ListKind) (X : Str) :
    indentOf (((str "    " ++ lfKey f) ++ str ": [") ++ X) = 4 := by
  cases f <;> rfl

theorem lfKey_mem_listKeys (f : ListKind) :
    lfKey f = str "preconditions" ∨ lfKey f = str "postconditions" ∨
      lfKey f = str "escalation_triggers" := by
  cases f
  · exact Or.inl rfl
  · exact Or.inr (Or.inl rfl)
  · exact Or.inr (Or.inr rfl)

theorem parseInlineList_commaJoin (f : ListKind) (vs : List Str)
    (hvs : ∀ v ∈ vs, v ∈ lfVocab f) (hne : vs ≠ []) :
    parseInlineList ((str "[" ++ commaJoin vs) ++ str "]") = .ok vs := by
  obtain ⟨hJne, hJL, hJR, _⟩ := commaJoin_facts f vs hne hvs
  have htrimS : trim ((str "[" ++ commaJoin vs) ++ str "]") =
      (str "[" ++ commaJoin vs) ++ str "]" :=
    trim_wrap (by decide) (by decide) (commaJoin vs)
  have htrimJ : trim (commaJoin vs) = commaJoin vs := by
    unfold trim
    rw [show trimLeft (commaJoin vs) = commaJoin vs from hJL, hJR]
  have hc : ((((str "[" ++ commaJoin vs) ++ str "]").head? == some '[') &&
      (((str "[" ++ commaJoin vs) ++ str "]").getLast? == some ']')) = true := by
    rw [getLast?_wrap]
    rfl
  simp only [parseInlineList, htrimS]
  rw [if_pos hc,
    show (((str "[" ++ commaJoin vs) ++ str "]").drop 1) = commaJoin vs ++ str "]" from rfl,
    show (str "]" : Str) = [']'] from rfl, List.dropLast_concat, htrimJ, if_neg hJne,
    scanItems_commaJoin f vs hne hvs [] (fun c hc2 => absurd hc2 (List.not_mem_nil c))]

theorem processLine_inlineKey (f : ListKind) (vs : List Str)
    (hvs : ∀ v ∈ vs, v ∈ lfVocab f) (hne : vs ≠ []) (n : Nat) :
    processLine c7PrefState (str "    " ++ lfKey f ++ str ": [" ++ commaJoin vs ++ str "]") n =
      .ok (.proceed (c7DoneState f vs)) := by
  rw [List.append_assoc (str "    " ++ lfKey f ++ str ": [") (commaJoin vs) (str "]")]
  obtain ⟨hJne, hJL, hJR, _⟩ := commaJoin_facts f vs hne hvs
  have htrimL := trim_wrap (keyPrefix_dropWhile f) (keyColonBracket_ne f) (commaJoin vs)
  rw [List.append_assoc ((str "    " ++ lfKey f) ++ str ": [") (commaJoin vs) (str "]")] at htrimL
  have hcond : (decide ((((lfKey f ++ str ": [") ++ commaJoin vs) ++ str "]") = []) ||
      ((((lfKey f ++ str ": [") ++ commaJoin vs) ++ str "]").head? == some '#')) = false := by
    cases f <;> rfl
  have hcondProp : ¬((decide ((((lfKey f ++ str ": [") ++ commaJoin vs) ++ str "]") = []) ||
      ((((lfKey f ++ str ": [") ++ commaJoin vs) ++ str "]").head? == some '#')) = true) := by
    intro hx
    rw [hcond] at hx
    exact Bool.false_ne_true hx
  have hkv := matchKeyValue_inline_line f (commaJoin vs ++ str "]")
  have htrimR : trim (str " [" ++ (commaJoin vs ++ str "]")) =
      (str "[" ++ commaJoin vs) ++ str "]" := by
    rw [← List.append_assoc]
    exact trim_wrap (by decide) (by decide) (commaJoin vs)
  rw [htrimR] at hkv
  have hpil := parseInlineList_commaJoin f vs hvs hne
  have hvlf := validateListField_ok f vs hvs n
  have hbr : (((str "[" ++ commaJoin vs) ++ str "]").head? == some '[') = true := rfl
  simp only [processLine, htrimL]
  rw [if_neg hcondProp]
  simp only [c7PrefState, stepsItemRest, matchListItem_inline_line, stepsItemKv, hkv,
    indentOf_inline_line]
  rw [if_neg (show ¬(4 = 0) by decide), if_pos (lfKey_mem_listKeys f), if_pos hbr]
  simp only [hpil, hvlf]
  rfl

theorem c7Base_clean : ∀ l ∈ c7Base, '\n' ∉ l ∧ '\r' ∉ l := by decide

theorem c7_inline_char (f : ListKind) (vs : List Str) (h : ∀ v ∈ vs, v ∈ lfVocab f)
    {c : Char} (hc : c = '\n' ∨ c = '\r') :
    c ∉ str "    " ++ lfKey f ++ str ": [" ++ commaJoin vs ++ str "]" := by
  intro hmem
  rcases List.mem_append.mp hmem with h1 | h1
  case inr => rcases hc with rfl | rfl <;> exact absurd h1 (by decide)
  rcases List.mem_append.mp h1 with h2 | h2
  case inr =>
    rcases commaJoin_char_mem h2 with ⟨v, hv, hcv⟩ | h3
    · obtain ⟨_, _, _, _, hn, hr, _⟩ := lfVocab_facts f v (h v hv)
      rcases hc with rfl | rfl
      · exact hn hcv
      · exact hr hcv
    · rcases hc with rfl | rfl <;> exact absurd h3 (by decide)
  rcases List.mem_append.mp h2 with h3 | h3
  case inr => rcases hc with rfl | rfl <;> exact absurd h3 (by decide)
  rcases List.mem_append.mp h3 with h4 | h4
  · rcases hc with rfl | rfl <;> exact absurd h4 (by decide)
  · rcases hc with rfl | rfl <;> (cases f <;> exact absurd h4 (by decide))

theorem c7_blockKey_char (f : ListKind) {c : Char} (hc : c = '\n' ∨ c = '\r') :
    c ∉ str "    " ++ lfKey f ++ str ":" := by
  intro hmem
  rcases hc with rfl | rfl <;> (cases f <;> exact absurd hmem (by decide))

theorem c7_item_char {f : ListKind} {v : Str} (hv : v ∈ lfVocab f) {c : Char}
    (hc : c = '\n' ∨ c = '\r') : c ∉ str "      - " ++ v := by
  intro hmem
  obtain ⟨_, _, _, _, hn, hr, _⟩ := lfVocab_facts f v hv
  rcases List.mem_append.mp hmem with h1 | h1
  · rcases hc with rfl | rfl <;> exact absurd h1 (by decide)
  · rcases hc with rfl | rfl
    · exact hn h1
    · exact hr h1

/-! Claim theorems. -/

/-- C5: for a document whose steps carry quote-free ids, with a unique step
`s` of id `i`, and a name `x` not declared among the document's arguments:
(1) the validator reports the dangling-placeholder violation naming `s` and
`x` exactly once per occurrence of a placeholder whose trimmed name is `x`
in `s`'s args template; (2) adding an argument named `x` removes exactly
those violations — the named message is gone and every surviving violation
was already present; (3) validation is a pure function, so consecutive runs
on the same document return the same list (in particular `[]` twice on an
otherwise-valid document) — in the embedding this last part is immediate. -/
theorem C5_dangling_placeholder_reporting (p : Playbook) (s : Step) (i x : Str)
    (hq : ∀ t ∈ p.steps, dquote ∉ t.id.getD [])
    (hid : s.id = some i) (hi : i ≠ [])
    (huniq : p.steps.filter (fun t => t.id = some i) = [s])
    (hx : x ∉ declaredArgNames p) (hxe : x ≠ []) :
    (validateDocument p).count (argRefMsg (stepRef s) x) =
      (((scanRefs s.args).map trim).filter (fun n => decide (n = x))).length ∧
    (∀ a : Arg, a.name = some x →
      argRefMsg (stepRef s) x ∉ validateDocument { p with args := p.args ++ [a] } ∧
      ∀ v ∈ validateDocument { p with args := p.args ++ [a] }, v ∈ validateDocument p) ∧
    (validateDocument p = [] → validateDocument p = [] ∧ validateDocument p = []) := by
  have hq2 : ∀ t ∈ p.steps, ∀ j, t.id = some j → dquote ∉ j := by
    intro t ht j hj
    have hg := hq t ht
    rw [hj] at hg
    exact hg
  have hsmem : s ∈ p.steps :=
    List.mem_of_mem_filter (by rw [huniq]; exact List.mem_singleton_self s)
  have hqi : dquote ∉ i := hq2 s hsmem i hid
  have href : stepRef s = str "step \"" ++ i ++ str "\"" := stepRef_of_id hid hi
  refine ⟨?_, ?_, fun h => ⟨h, h⟩⟩
  · rw [href]
    unfold validateDocument
    rw [List.count_append, count_argRef_topViolations,
      count_argRef_stepsViolations (declaredArgNames p) i x hi hqi p.steps [] hq2, huniq]
    simp only [List.map_cons, List.map_nil, List.sum_cons, List.sum_nil]
    rw [length_filter_eq_count,
      count_filter_of_pos (show decide (x ∉ declaredArgNames p) = true by simp [hx])]
    omega
  · intro a ha
    have hdecl : declaredArgNames { p with args := p.args ++ [a] } = declaredArgNames p ++ [x] :=
      declaredArgNames_append_arg p a x ha hxe
    constructor
    · rw [href]
      have hc : (validateDocument { p with args := p.args ++ [a] }).count
          (argRefMsg (str "step \"" ++ i ++ str "\"") x) = 0 := by
        unfold validateDocument
        rw [List.count_append, count_argRef_topViolations, hdecl,
          show ({ p with args := p.args ++ [a] } : Playbook).steps = p.steps from rfl,
          count_argRef_stepsViolations (declaredArgNames p ++ [x]) i x hi hqi p.steps [] hq2]
        have hz : ((p.steps.filter (fun t => t.id = some i)).map
            (fun t => (((scanRefs t.args).map trim).filter
              (fun n => decide (n ∉ declaredArgNames p ++ [x]))).count x)).sum = 0 := by
          apply List.sum_eq_zero
          intro y hy
          obtain ⟨t, _, he⟩ := List.mem_map.mp hy
          rw [← he]
          apply count_filter_of_neg
          simp [List.mem_append]
        rw [hz]
      exact List.count_eq_zero.mp hc
    · intro v hv
      unfold validateDocument at hv ⊢
      simp only [List.mem_append] at hv ⊢
      rcases hv with h | h
      · rw [topViolations_args_irrel] at h
        exact Or.inl h
      · rw [show ({ p with args := p.args ++ [a] } : Playbook).steps = p.steps from rfl,
          hdecl] at h
        exact Or.inr (stepsViolations_mono (fun y hy => List.mem_append_left _ hy) p.steps [] v h)

/-- Witness for C5 at `c5Doc`: the single step `c5Step` has args template
`\x7b\x7bfeature\x7d\x7d` and no argument is declared; the dangling
violation appears exactly once, and declaring `feature` removes it without
introducing new violations. -/
theorem C5_witness :
    (validateDocument c5Doc).count (argRefMsg (stepRef c5Step) (str "feature")) =
      (((scanRefs c5Step.args).map trim).filter (fun n => decide (n = str "feature"))).length ∧
    (∀ a : Arg, a.name = some (str "feature") →
      argRefMsg (stepRef c5Step) (str "feature") ∉
        validateDocument { c5Doc with args := c5Doc.args ++ [a] } ∧
      ∀ v ∈ validateDocument { c5Doc with args := c5Doc.args ++ [a] },
        v ∈ validateDocument c5Doc) ∧
    (validateDocument c5Doc = [] →
      validateDocument c5Doc = [] ∧ validateDocument c5Doc = []) :=
  C5_dangling_placeholder_reporting c5Doc c5Step (str "s") (str "feature") (by decide) (by decide)
    (by decide) (by decide) (by decide) (by decide)

/-- C6: for every document and every nonempty id value `i`, the validator
reports the duplicate-id violation naming `i` once per occurrence beyond the
first — `n - 1` messages for `n` steps carrying id `i` — and does not
deduplicate them (the count is exactly `n - 1`, not `min (n-1) 1`).  Steps
with a null or empty id are skipped by the uniqueness check and do not count
as occurrences. -/
theorem C6_duplicate_id_violation_count (p : Playbook) (i : Str) (hi : i ≠ []) :
    (validateDocument p).count (dupIdMsg i) =
      (p.steps.filter (fun s => s.id = some i)).length - 1 := by
  unfold validateDocument
  rw [List.count_append, count_dup_topViolations, count_dup_stepsViolations i hi]
  simp

/-- Witness for C6 at a concrete document: `dupDoc` has two steps with id
`s`, and the validator reports exactly `2 - 1 = 1` duplicate violation. -/
theorem C6_witness :
    str "s" ≠ [] ∧
      (validateDocument dupDoc).count (dupIdMsg (str "s")) =
        (dupDoc.steps.filter (fun s => s.id = some (str "s"))).length - 1 :=
  ⟨by decide, C6_duplicate_id_violation_count dupDoc (str "s") (by decide)⟩

/-- C2 (amended): `parsePlaybook` performs no duplicate-id check — neither
during the line scan nor at flush time — so a text with two same-id steps
parses successfully (see the counterexample); the duplicate is instead
reported by the validator, which flags every occurrence beyond the first. -/
theorem C2_amended_dup_ids_deferred_to_validator (text : Str) (p : Playbook) (i : Str)
    (hp : parsePlaybook text = .ok p) (hi : i ≠ [])
    (hdup : 2 ≤ (p.steps.filter (fun s => s.id = some i)).length) :
    dupIdMsg i ∈ validateDocument p := by
  have hc : (validateDocument p).count (dupIdMsg i) =
      (p.steps.filter (fun s => s.id = some i)).length - 1 := by
    unfold validateDocument
    rw [List.count_append, count_dup_topViolations, count_dup_stepsViolations i hi]
    simp
  have hpos : 0 < (validateDocument p).count (dupIdMsg i) := by omega
  exact List.count_pos_iff.mp hpos

/-- Witness for the amended C2 at `dupInput`/`dupDoc`. -/
theorem C2_amended_witness : dupIdMsg (str "s") ∈ validateDocument dupDoc :=
  C2_amended_dup_ids_deferred_to_validator dupInput dupDoc (str "s") (by decide) (by decide)
    (by decide)

/-- C4: the validator is a total pure function of the document (the
embedding returns for every well-typed `Playbook`, which is the never-throws
/ no-I/O part of the claim), and it collects every violation in a single
pass without short-circuiting: splitting the step list anywhere decomposes
the output into the top-level violations followed by each segment's
violations in order, and a step with a missing required field contributes
its violation no matter what surrounds it. -/
theorem C4_collects_all_violations_in_one_pass :
    (∀ (p : Playbook) (l1 l2 : List Step), p.steps = l1 ++ l2 →
      validateDocument p =
        topViolations p ++ (stepsViolations (declaredArgNames p) [] l1 ++
          stepsViolations (declaredArgNames p) (seenAfter [] l1) l2)) ∧
    (∀ (p : Playbook) (s : Step), s ∈ p.steps → falsyS s.command = true →
      missingFieldMsg (stepRef s) (str "command") ∈ validateDocument p) := by
  constructor
  · intro p l1 l2 hsplit
    unfold validateDocument
    rw [hsplit, stepsViolations_append]
  · intro p s hmem hcmd
    unfold validateDocument
    refine List.mem_append.mpr (Or.inr ?_)
    exact mem_stepsViolations_of_mem (declaredArgNames p)
      (fun seen => mem_required_of_falsy_command hcmd _ seen) p.steps [] hmem

/-- Witness for C4: the split law applied to `dupDoc` with its two steps
split one-and-one, and the missing-command membership applied to a document
whose step has no command. -/
theorem C4_witness :
    (validateDocument dupDoc =
      topViolations dupDoc ++ (stepsViolations (declaredArgNames dupDoc) []
        [{ id := some (str "s"), command := some (str "/c"), autonomy := some (str "auto"),
           error_policy := some (str "stop") }] ++
        stepsViolations (declaredArgNames dupDoc)
          (seenAfter []
            [{ id := some (str "s"), command := some (str "/c"), autonomy := some (str "auto"),
               error_policy := some (str "stop") }])
          [{ id := some (str "s"), command := some (str "/d"), autonomy := some (str "auto"),
             error_policy := some (str "stop") }])) ∧
    missingFieldMsg (stepRef { id := some (str "s") }) (str "command") ∈
      validateDocument { name := some (str "n"), description := some (str "d"),
                         version := some (str "1"), args := [],
                         steps := [{ id := some (str "s") }] } :=
  ⟨C4_collects_all_violations_in_one_pass.1 dupDoc _ _ (by decide),
   C4_collects_all_violations_in_one_pass.2 _ { id := some (str "s") } (by decide) (by decide)⟩

/-- C9: the validator's enum checks for `autonomy` and `error_policy` and
the pattern/uniqueness checks for `id` are guarded by truthiness: a step
whose value for the field is null or the empty string gets exactly the
missing-required-field violation for it, the enum check for that field
produces nothing, and the id block neither reports nor touches the seen-id
set. -/
theorem C9_checks_guarded_by_truthiness :
    ∀ (decl seen : List Str) (s : Step),
      (falsyS s.autonomy = true →
        autonomyViolations s = [] ∧
        missingFieldMsg (stepRef s) (str "autonomy") ∈ (stepViolations decl seen s).1) ∧
      (falsyS s.error_policy = true →
        errorPolicyViolations s = [] ∧
        missingFieldMsg (stepRef s) (str "error_policy") ∈ (stepViolations decl seen s).1) ∧
      (falsyS s.id = true →
        idViolations seen s = ([], seen) ∧
        missingFieldMsg (stepRef s) (str "id") ∈ (stepViolations decl seen s).1) ∧
      (∀ p : Playbook, s ∈ p.steps → falsyS s.autonomy = true →
        missingFieldMsg (stepRef s) (str "autonomy") ∈ validateDocument p) := by
  intro decl seen s
  refine ⟨fun ha => ⟨?_, mem_required_of_falsy_autonomy ha decl seen⟩,
          fun he => ⟨?_, mem_required_of_falsy_error_policy he decl seen⟩,
          fun hid => ⟨?_, mem_required_of_falsy_id hid decl seen⟩,
          fun p hmem ha => ?_⟩
  · unfold autonomyViolations
    cases hv : s.autonomy with
    | none => rfl
    | some v =>
      rw [hv] at ha
      simp only [falsyS, List.isEmpty_iff] at ha
      subst ha
      simp
  · unfold errorPolicyViolations
    cases hv : s.error_policy with
    | none => rfl
    | some v =>
      rw [hv] at he
      simp only [falsyS, List.isEmpty_iff] at he
      subst he
      simp
  · unfold idViolations
    cases hv : s.id with
    | none => rfl
    | some v =>
      rw [hv] at hid
      simp only [falsyS, List.isEmpty_iff] at hid
      subst hid
      simp
  · unfold validateDocument
    refine List.mem_append.mpr (Or.inr ?_)
    exact mem_stepsViolations_of_mem (declaredArgNames p)
      (fun seen2 => mem_required_of_falsy_autonomy ha _ seen2) p.steps [] hmem

/-- Witness for C9 at the all-null `emptyStep`. -/
theorem C9_witness :
    autonomyViolations emptyStep = [] ∧
      missingFieldMsg (stepRef emptyStep) (str "autonomy") ∈
        (stepViolations [] [] emptyStep).1 ∧
      idViolations [] emptyStep = ([], []) :=
  ⟨((C9_checks_guarded_by_truthiness [] [] emptyStep).1 (by decide)).1,
   ((C9_checks_guarded_by_truthiness [] [] emptyStep).1 (by decide)).2,
   (((C9_checks_guarded_by_truthiness [] [] emptyStep).2.2.1) (by decide)).1⟩

/-- C1: the claim states that `parsePlaybook` normalizes the `model` field
(absent/empty → null, `opus`/`sonnet`/`haiku` kept, anything else a parse
error naming the value).  The parser has no `model` case at all:
`_applyStepField` falls into its unknown-step-field branch on the very first
valid `model:` line, and `_emptyStep` carries no `model` key, even though
the repository's own test suite (`tests/yaml-parser.test.js`, the blocks
"step with model: sonnet parses to model: sonnet" through "throws on
case-sensitive model value (Sonnet)") asserts exactly the claimed behavior
and validator.js checks `step.model` against `MODEL_VALUES`.  This theorem
evaluates the embedded parser at the failing input: a step carrying
`model: "sonnet"` is rejected as an unknown field instead of parsing with
`model = "sonnet"`. -/
theorem C1_model_field_rejected_as_unknown :
    parsePlaybook modelInput = .error (str "Line 10: unknown step field \"model\"") := by
  decide

/-- C2 counterexample: the claim states that whenever the assembled step
list contains two steps with the same id, `parsePlaybook` throws at flush
time.  On `dupInput` — two steps both with id `s` — parsing succeeds and
returns both steps, so the parser performs no duplicate-id check at all. -/
theorem C2_counterexample_dup_ids_parse :
    parsePlaybook dupInput = .ok dupDoc ∧
      (dupDoc.steps.map Step.id) = [some (str "s"), some (str "s")] := by
  constructor
  · decide
  · decide

/-- C3 counterexample: the claim states that `parsePlaybook` checks the
document-level `name` value against the slug pattern at the point of
assignment and fails fast at that line.  On `badNameInput`, whose name value
`Bad_Name` does not match `[a-z0-9-]+` (it contains `B`, `N` and `_`),
parsing succeeds and returns the non-slug name unchanged. -/
theorem C3_counterexample_bad_name_parses :
    parsePlaybook badNameInput = .ok badNameDoc ∧ isSlug (str "Bad_Name") = false := by
  constructor
  · decide
  · decide

/-- C3 (amended): `parsePlaybook` does not check the document-level `name`
value against the slug pattern at all — a non-slug name is assigned and
parsing succeeds (see the counterexample) — and the slug check on `name` is
instead performed by the validator, which reports it for every document
whose name is a nonempty non-slug string. -/
theorem C3_amended_name_slug_checked_by_validator :
    (∀ (d : Playbook) (n : Str), d.name = some n → n ≠ [] → isSlug n = false →
      namePatternMsg n ∈ validateDocument d) ∧
    parsePlaybook badNameInput = .ok badNameDoc ∧
    namePatternMsg (str "Bad_Name") ∈ validateDocument badNameDoc := by
  refine ⟨?_, by decide, by decide⟩
  intro d n hn hne hslug
  unfold validateDocument
  refine List.mem_append.mpr (Or.inl ?_)
  unfold topViolations
  refine List.mem_append.mpr (Or.inl ?_)
  refine List.mem_append.mpr (Or.inr ?_)
  rw [hn]
  show namePatternMsg n ∈ (if n ≠ [] ∧ ¬ isSlug n = true then [namePatternMsg n] else [])
  rw [if_pos ⟨hne, by simp [hslug]⟩]
  exact List.mem_singleton_self _

/-- Witness for the amended C3: the general validator conjunct applied to
`badNameDoc`, whose name `Bad_Name` is a nonempty non-slug. -/
theorem C3_amended_witness : namePatternMsg (str "Bad_Name") ∈ validateDocument badNameDoc :=
  C3_amended_name_slug_checked_by_validator.1 badNameDoc (str "Bad_Name") (by decide) (by decide)
    (by decide)

/-- C8 (amended): the block-list sub-mode's required item indentation is
fixed at the key's indentation plus two (the standard nested indentation)
the moment the sub-mode is entered; items written exactly there are accepted
and appended in order, while a first item at any other depth is not
tolerated and no calibration from the observed indentation takes place (the
source's calibration branch is unreachable because `listIndent` is never
null while `listField` is set). -/
theorem C8_amended_block_indent_fixed_not_calibrated :
    parsePlaybook stdItemInput = .ok stdItemDoc ∧
    parsePlaybook deepItemInput =
      .error (str "Line 11: unexpected content in step item: - spec_exists") :=
  ⟨by decide, by decide⟩

/-- C10: a parsed step's `parallel_group` is null exactly when the key never
occurred in the step's block: `_emptyStep` initialises it to null, applying
a `parallel_group` key line always stores the unquoted value — in particular
the empty string for an empty value, never null — and applying any other
recognized step-field line leaves `parallel_group` untouched; concretely, a
playbook without the key parses with `parallel_group = null` and one with a
bare `parallel_group:` parses with `parallel_group = ""`. -/
theorem C10_parallel_group_null_iff_absent :
    emptyStep.parallel_group = none ∧
    (∀ (st : Step) (line : Str) (n : Nat) (kv : KV), matchKeyValue line = some kv →
      kv.key = str "parallel_group" →
      applyStepField st line n = .ok { st with parallel_group := some (unquote kv.rawValue) }) ∧
    (∀ (st st2 : Step) (line : Str) (n : Nat) (kv : KV), matchKeyValue line = some kv →
      kv.key ≠ str "parallel_group" → applyStepField st line n = .ok st2 →
      st2.parallel_group = st.parallel_group) ∧
    parsePlaybook pgAbsentInput = .ok pgAbsentDoc ∧
    parsePlaybook pgEmptyInput = .ok pgEmptyDoc := by
  refine ⟨rfl, ?_, ?_, by decide, by decide⟩
  · intro st line n kv hm hk
    exact applyStepField_pg_set st line n kv hm hk
  · intro st st2 line n kv hm hk hok
    exact applyStepField_pg_preserved st st2 line n kv hm hk hok

/-- Witness for C10: a concrete `parallel_group: g1` line sets the field on
`emptyStep`, a concrete `command: /c` line leaves it untouched, and the
fresh step starts with a null `parallel_group`. -/
theorem C10_witness :
    applyStepField emptyStep (str "parallel_group: g1") 1 =
      .ok { emptyStep with parallel_group := some (unquote (str "g1")) } ∧
    ({ emptyStep with command := some (str "/c") } : Step).parallel_group =
      emptyStep.parallel_group ∧
    emptyStep.parallel_group = none :=
  ⟨C10_parallel_group_null_iff_absent.2.1 emptyStep (str "parallel_group: g1") 1
      ⟨0, str "parallel_group", str "g1"⟩ (by decide) (by decide),
   C10_parallel_group_null_iff_absent.2.2.1 emptyStep
      { emptyStep with command := some (str "/c") } (str "command: /c") 1
      ⟨0, str "command", str "/c"⟩ (by decide) (by decide) (by decide),
   C10_parallel_group_null_iff_absent.1⟩

/-- C8 counterexample: the claim states that whatever deeper indentation the
first `- item` line of a block list uses is accepted and calibrates the rest
of the block.  On `deepItemInput` the `preconditions:` key sits at indent 4,
so the parser fixes the required item indentation at 6; the first item at
indent 8 is not accepted — parsing fails on that line.  (The calibration
branch of the source is unreachable: `listIndent` is always assigned when
the sub-mode is entered, and a mismatched list item resets `listField`
before the calibration code could run.) -/
theorem C8_counterexample_deep_item_rejected :
    parsePlaybook deepItemInput =
      .error (str "Line 11: unexpected content in step item: - spec_exists") := by
  decide


/-- **C7**: for each of the three list fields and any sequence of valid tag
values, the inline list form and the equivalent block-list form parse to the
same document, whose single step carries exactly that ordered list of
strings in the field. -/
theorem C7_inline_and_block_forms_agree (f : ListKind) (vs : List Str)
    (h : ∀ v ∈ vs, v ∈ lfVocab f) :
    parsePlaybook (inlineInput f vs) = .ok (c7Doc f vs) ∧
    parsePlaybook (blockInput f vs) = .ok (c7Doc f vs) := by
  constructor
  · have hcn : ∀ l ∈ c7Base ++ [str "    " ++ lfKey f ++ str ": [" ++ commaJoin vs ++ str "]"],
        '\n' ∉ l := by
      intro l hl
      rcases List.mem_append.mp hl with h1 | h1
      · exact (c7Base_clean l h1).1
      · rw [List.mem_singleton] at h1
        subst h1
        exact c7_inline_char f vs h (Or.inl rfl)
    have hcr : ∀ l ∈ c7Base ++ [str "    " ++ lfKey f ++ str ": [" ++ commaJoin vs ++ str "]"],
        '\r' ∉ l := by
      intro l hl
      rcases List.mem_append.mp hl with h1 | h1
      · exact (c7Base_clean l h1).2
      · rw [List.mem_singleton] at h1
        subst h1
        exact c7_inline_char f vs h (Or.inr rfl)
    unfold parsePlaybook inlineInput
    rw [splitLines_joinLines _ (by simp) hcn, map_stripCR_id hcr, runLines_c7Prefix]
    rcases vs with _ | ⟨v, rest⟩
    · cases f <;> rfl
    · rw [runLines_cons_proceed _ (processLine_inlineKey f (v :: rest) h (by simp) 10)]
      exact finishParse_c7Done f (v :: rest)
  · have hbn : ∀ l ∈ c7Base ++ (str "    " ++ lfKey f ++ str ":") ::
        vs.map (fun v => str "      - " ++ v), '\n' ∉ l := by
      intro l hl
      rcases List.mem_append.mp hl with h1 | h1
      · exact (c7Base_clean l h1).1
      · rcases List.mem_cons.mp h1 with rfl | h2
        · exact c7_blockKey_char f (Or.inl rfl)
        · obtain ⟨v, hv, rfl⟩ := List.mem_map.mp h2
          exact c7_item_char (h v hv) (Or.inl rfl)
    have hbr : ∀ l ∈ c7Base ++ (str "    " ++ lfKey f ++ str ":") ::
        vs.map (fun v => str "      - " ++ v), '\r' ∉ l := by
      intro l hl
      rcases List.mem_append.mp hl with h1 | h1
      · exact (c7Base_clean l h1).2
      · rcases List.mem_cons.mp h1 with rfl | h2
        · exact c7_blockKey_char f (Or.inr rfl)
        · obtain ⟨v, hv, rfl⟩ := List.mem_map.mp h2
          exact c7_item_char (h v hv) (Or.inr rfl)
    unfold parsePlaybook blockInput
    rw [splitLines_joinLines _ (by simp) hbn, map_stripCR_id hbr, runLines_c7Prefix,
      runLines_cons_proceed _ (processLine_blockKey f 10), runLines_blockItems f vs h []]
    exact finishParse_c7Acc f vs

/-- Witness for C7 at the spec's own example: `preconditions:
[spec_exists, plan_exists]` and the block form with the same two items. -/
theorem C7_witness :
    parsePlaybook (inlineInput .pre [str "spec_exists", str "plan_exists"]) =
      .ok (c7Doc .pre [str "spec_exists", str "plan_exists"]) ∧
    parsePlaybook (blockInput .pre [str "spec_exists", str "plan_exists"]) =
      .ok (c7Doc .pre [str "spec_exists", str "plan_exists"]) :=
  C7_inline_and_block_forms_agree .pre [str "spec_exists", str "plan_exists"] (by decide)

end Playbooks
